import Mathlib

/-!
Verification development for the tree-sitter syntax-highlighting engine
(`crates/highlight/src/highlight.rs`).

The Rust crate is embedded shallowly:

* Byte strings (`&[u8]`, `&str`) are modelled as `List Nat` of byte values.
* The external tree-sitter parser and query cursor are opaque collaborators:
  a layer's stream of query captures is an input of the model (a list of
  stream elements), and construction of injected layers (which requires
  parsing) is an oracle function supplied as a parameter.  Everything the
  crate itself computes over those inputs is translated directly.
* Rust `Vec` stacks are modelled with the top of the stack at the head of a
  Lean list: `push`/`last`/`pop` become `cons`/`head?`/`tail`.  Lists that
  the Rust code only appends to and iterates in order (`highlights` in the
  renderer, `line_offsets`) keep the Rust order.
* Machine integers (`usize`, `u32`) are modelled as `Nat`; `usize::MAX` is
  the explicit constant `USIZE_MAX`.
-/

namespace TSHighlight

/-- Mirrors `CANCELLATION_CHECK_INTERVAL` (highlight.rs line 25). -/
def CANCELLATION_CHECK_INTERVAL : Nat := 100

/-- Value of `usize::MAX` on a 64-bit target, as a `Nat`. -/
def USIZE_MAX : Nat := 2 ^ 64 - 1

/-- Mirrors `struct Highlight(pub usize)`: an opaque style index chosen by the
caller at `configure` time. -/
structure Highlight where
  idx : Nat
  deriving DecidableEq, Repr

/-- Mirrors `enum Error`: the three iterator-surface error kinds. -/
inductive Error where
  | Cancelled
  | InvalidLanguage
  | Unknown
  deriving DecidableEq, Repr

/-- Mirrors `enum HighlightEvent`: a source span, a highlight opening, or a
highlight closing. -/
inductive HighlightEvent where
  | Source (s : Nat) (e : Nat)
  | HighlightStart (h : Highlight)
  | HighlightEnd
  deriving DecidableEq, Repr

/-- Model of a tree-sitter syntax node as consumed by the crate: an identity
plus its byte range.  Two nodes are the same node exactly when they agree on
all fields (node equality in tree-sitter compares identity within one tree;
nodes with the same identity have the same range). -/
structure Node where
  id : Nat
  start_byte : Nat
  end_byte : Nat
  deriving DecidableEq, Repr

/-- Model of one `QueryCapture`: a node plus the query's capture index. -/
structure QCapture where
  node : Node
  index : Nat
  deriving DecidableEq, Repr

/-- Model of one element of the `captures` streaming iterator: a pair of a
`QueryMatch` (its id, pattern index and capture list) and the index of the
designated capture within that list.  `match_id` identifies the match so that
`QueryMatch::remove` can drop the match's remaining stream elements. -/
structure CapElem where
  match_id : Nat
  pattern_index : Nat
  captures : List QCapture
  capture_index : Nat
  deriving DecidableEq, Repr

/-- The designated capture of a stream element (`match.captures[capture_index]`).
Rust indexing panics out of range; the model totalises with a default. -/
def CapElem.cap (c : CapElem) : QCapture :=
  c.captures.getD c.capture_index ⟨⟨0, 0, 0⟩, 0⟩

/-- The node of the designated capture. -/
def CapElem.node (c : CapElem) : Node :=
  c.cap.node

/-- Model of a `#set!` query property (`QueryProperty`): a key and an optional
value.  Values that the crate compares against source text are byte lists. -/
structure QueryProperty where
  key : String
  value : Option (List Nat)
  deriving DecidableEq, Repr

/-- The byte string "true", for the `local.scope-inherits` property test. -/
def TRUE_BYTES : List Nat := [116, 114, 117, 101]

/-- Validity of a byte list as UTF-8 (RFC 3629 table), modelling the success
of `str::from_utf8` / `Node::utf8_text`. -/
def isValidUtf8 : List Nat → Bool
  | [] => true
  | c :: rest =>
    if c ≤ 0x7F then isValidUtf8 rest
    else if 0xC2 ≤ c ∧ c ≤ 0xDF then
      match rest with
      | c1 :: rest1 => (0x80 ≤ c1 && c1 ≤ 0xBF) && isValidUtf8 rest1
      | [] => false
    else if c = 0xE0 then
      match rest with
      | c1 :: c2 :: rest2 =>
        (0xA0 ≤ c1 && c1 ≤ 0xBF) && ((0x80 ≤ c2 && c2 ≤ 0xBF) && isValidUtf8 rest2)
      | _ => false
    else if (0xE1 ≤ c ∧ c ≤ 0xEC) ∨ (0xEE ≤ c ∧ c ≤ 0xEF) then
      match rest with
      | c1 :: c2 :: rest2 =>
        (0x80 ≤ c1 && c1 ≤ 0xBF) && ((0x80 ≤ c2 && c2 ≤ 0xBF) && isValidUtf8 rest2)
      | _ => false
    else if c = 0xED then
      match rest with
      | c1 :: c2 :: rest2 =>
        (0x80 ≤ c1 && c1 ≤ 0x9F) && ((0x80 ≤ c2 && c2 ≤ 0xBF) && isValidUtf8 rest2)
      | _ => false
    else if c = 0xF0 then
      match rest with
      | c1 :: c2 :: c3 :: rest3 =>
        (0x90 ≤ c1 && c1 ≤ 0xBF) && ((0x80 ≤ c2 && c2 ≤ 0xBF) &&
          ((0x80 ≤ c3 && c3 ≤ 0xBF) && isValidUtf8 rest3))
      | _ => false
    else if 0xF1 ≤ c ∧ c ≤ 0xF3 then
      match rest with
      | c1 :: c2 :: c3 :: rest3 =>
        (0x80 ≤ c1 && c1 ≤ 0xBF) && ((0x80 ≤ c2 && c2 ≤ 0xBF) &&
          ((0x80 ≤ c3 && c3 ≤ 0xBF) && isValidUtf8 rest3))
      | _ => false
    else if c = 0xF4 then
      match rest with
      | c1 :: c2 :: c3 :: rest3 =>
        (0x80 ≤ c1 && c1 ≤ 0x8F) && ((0x80 ≤ c2 && c2 ≤ 0xBF) &&
          ((0x80 ≤ c3 && c3 ≤ 0xBF) && isValidUtf8 rest3))
      | _ => false
    else false

/-- The bytes of a node's text (`&source[node.byte_range()]`), returned when
they decode as UTF-8 and `none` otherwise, modelling
`str::from_utf8(&source[range]).ok()` and `Node::utf8_text(source).ok()`
(byte-equality of the returned slices coincides with `str` equality). -/
def sliceUtf8 (source : List Nat) (n : Node) : Option (List Nat) :=
  let bytes := (source.drop n.start_byte).take (n.end_byte - n.start_byte)
  if isValidUtf8 bytes then some bytes else none

/-! Configuration construction (`HighlightConfiguration::new`, lines 338-437). -/

/-- Mirrors the query-source concatenation at the start of
`HighlightConfiguration::new` (lines 345-351): the three query strings are
concatenated in the order injections, locals, highlights, and the byte
offsets of the locals and highlights sections are recorded. -/
structure QuerySources where
  highlights_query : List Nat
  injection_query : List Nat
  locals_query : List Nat
  deriving DecidableEq, Repr

/-- Offset of the locals section in the concatenated query source. -/
def QuerySources.locals_query_offset (q : QuerySources) : Nat :=
  q.injection_query.length

/-- Offset of the highlights section in the concatenated query source. -/
def QuerySources.highlights_query_offset (q : QuerySources) : Nat :=
  q.injection_query.length + q.locals_query.length

/-- Mirrors the pattern-index scan of `HighlightConfiguration::new`
(lines 356-368), keeping the nested duplicate `if` of the source.  The scan
runs over the external query's per-pattern start byte offsets
(`query.start_byte_for_pattern(i)` for `i` below `query.pattern_count()`).
Returns the pair `(locals_pattern_index, highlights_pattern_index)`. -/
def pattern_boundary_indices (pattern_offsets : List Nat)
    (locals_query_offset highlights_query_offset : Nat) : Nat × Nat :=
  pattern_offsets.foldl
    (fun acc pattern_offset =>
      if pattern_offset < highlights_query_offset then
        (if pattern_offset < locals_query_offset then acc.1 + 1 else acc.1,
         if pattern_offset < highlights_query_offset then acc.2 + 1 else acc.2)
      else acc)
    (0, 0)

/-- A concrete triple of query sources used to instantiate theorems about
`pattern_boundary_indices` (section offsets 4 and 7). -/
def qsW : QuerySources :=
  ⟨[0, 0, 0], [0, 0, 0, 0], [0, 0, 0]⟩

/-! Configuration of recognized names (`HighlightConfiguration::configure`,
lines 455-482). -/

/-- Splitting a byte string at every dot, modelling `str::split('.')`: the
byte 0x2E is ASCII `.` and never occurs inside a multi-byte UTF-8 sequence,
so splitting the byte string at byte 46 coincides with splitting the string
at the character. -/
def split_dot : List Nat → List (List Nat)
  | [] => [[]]
  | c :: rest =>
    let parts := split_dot rest
    if c = 46 then [] :: parts
    else
      match parts with
      | p :: ps => (c :: p) :: ps
      | [] => [[c]]

/-- Mirrors the inner `for part in recognized_name.as_ref().split('.')` loop of
`configure` (lines 466-474): the candidate matches when every dot-separated
part occurs among the capture name's parts.  The Rust loop breaks at the
first missing part and then sets `matches = false`; `len` is only consulted
when no part was missing, where it equals the total part count. -/
def recognized_matches (capture_parts : List (List Nat)) (recognized_name : List Nat) : Bool :=
  (split_dot recognized_name).all (fun part => capture_parts.contains part)

/-- The `len` accumulated by that loop when the name matches: the number of
dot-separated parts of the recognized name. -/
def recognized_len (recognized_name : List Nat) : Nat :=
  (split_dot recognized_name).length

/-- Mirrors the `for (i, recognized_name) in recognized_names.iter().enumerate()`
loop of `configure` (lines 463-479), tracking `best_index` and
`best_match_len` (`i` is the enumeration index of the head of the remaining
list). -/
def best_index_loop (capture_parts : List (List Nat)) :
    List (List Nat) → Nat → Option Nat → Nat → Option Nat × Nat
  | [], _, best_index, best_match_len => (best_index, best_match_len)
  | recognized_name :: rest, i, best_index, best_match_len =>
    if recognized_matches capture_parts recognized_name ∧
        best_match_len < recognized_len recognized_name then
      best_index_loop capture_parts rest (i + 1) (some i) (recognized_len recognized_name)
    else
      best_index_loop capture_parts rest (i + 1) best_index best_match_len

/-- Mirrors the per-capture-name closure body of `configure` (lines 459-481). -/
def capture_highlight_index (recognized_names : List (List Nat)) (capture_name : List Nat) :
    Option Highlight :=
  ((best_index_loop (split_dot capture_name) recognized_names 0 none 0).1).map Highlight.mk

/-- Mirrors `HighlightConfiguration::configure` (lines 455-482): recomputes
`highlight_indices` from the query's capture names. -/
def configure (recognized_names : List (List Nat)) (capture_names : List (List Nat)) :
    List (Option Highlight) :=
  capture_names.map (capture_highlight_index recognized_names)

/-- The byte string "function". -/
def FUNCTION_BYTES : List Nat := [102, 117, 110, 99, 116, 105, 111, 110]

/-- The byte string "builtin". -/
def BUILTIN_BYTES : List Nat := [98, 117, 105, 108, 116, 105, 110]

/-- The byte string "method". -/
def METHOD_BYTES : List Nat := [109, 101, 116, 104, 111, 100]

/-- The byte string "function.builtin". -/
def FUNCTION_BUILTIN_BYTES : List Nat := FUNCTION_BYTES ++ [46] ++ BUILTIN_BYTES

/-- The byte string "function.method.builtin". -/
def FUNCTION_METHOD_BUILTIN_BYTES : List Nat :=
  FUNCTION_BYTES ++ [46] ++ METHOD_BYTES ++ [46] ++ BUILTIN_BYTES

/-- The byte string "zz". -/
def ZZ_BYTES : List Nat := [122, 122]

/-- The byte string "abc". -/
def ABC_BYTES : List Nat := [97, 98, 99]

/-! HTML renderer (`HtmlRenderer`, lines 1082-1238).  The attribute callback
writes bytes into the output buffer; it is modelled as a function returning
the bytes it would append. -/

/-- The byte string "<span ". -/
def SPAN_OPEN : List Nat := [60, 115, 112, 97, 110, 32]

/-- The byte string ">". -/
def SPAN_GT : List Nat := [62]

/-- The byte string "</span>". -/
def SPAN_CLOSE : List Nat := [60, 47, 115, 112, 97, 110, 62]

/-- The byte string "></span>", appended after the attributes of an empty
carriage-return span. -/
def EMPTY_SPAN_TAIL : List Nat := [62, 60, 47, 115, 112, 97, 110, 62]

/-- Mirrors `struct HtmlRenderer` (lines 142-148). -/
structure HtmlRenderer where
  html : List Nat
  line_offsets : List Nat
  carriage_return_highlight : Option Highlight
  last_carriage_return : Option Nat
  deriving DecidableEq, Repr

/-- Mirrors `HtmlRenderer::new` (lines 1090-1099): empty buffer with one
initial line offset 0 (reserve capacities are performance only). -/
def HtmlRenderer.new : HtmlRenderer :=
  { html := [], line_offsets := [0], carriage_return_highlight := none,
    last_carriage_return := none }

/-- Mirrors `HtmlRenderer::set_carriage_return_highlight` (lines 1101-1103). -/
def HtmlRenderer.set_carriage_return_highlight (r : HtmlRenderer)
    (highlight : Option Highlight) : HtmlRenderer :=
  { r with carriage_return_highlight := highlight }

/-- Mirrors `HtmlRenderer::add_carriage_return` (lines 1164-1180): when a
carriage-return highlight is configured, splice an empty styled span into the
buffer at the recorded offset. -/
def HtmlRenderer.add_carriage_return (r : HtmlRenderer) (offset : Nat)
    (attribute_callback : Highlight → List Nat) : HtmlRenderer :=
  match r.carriage_return_highlight with
  | some highlight =>
    { r with
      html := r.html.take offset ++ SPAN_OPEN ++ attribute_callback highlight ++
        EMPTY_SPAN_TAIL ++ r.html.drop offset }
  | none => r

/-- Mirrors `HtmlRenderer::start_highlight` (lines 1182-1189). -/
def HtmlRenderer.start_highlight (r : HtmlRenderer) (h : Highlight)
    (attribute_callback : Highlight → List Nat) : HtmlRenderer :=
  { r with html := r.html ++ SPAN_OPEN ++ attribute_callback h ++ SPAN_GT }

/-- Mirrors `HtmlRenderer::end_highlight` (lines 1191-1193). -/
def HtmlRenderer.end_highlight (r : HtmlRenderer) : HtmlRenderer :=
  { r with html := r.html ++ SPAN_CLOSE }

/-- Mirrors the nested `html_escape` function of `add_text`
(lines 1199-1208). -/
def html_escape (c : Nat) : Option (List Nat) :=
  if c = 62 then some [38, 103, 116, 59]
  else if c = 60 then some [38, 108, 116, 59]
  else if c = 38 then some [38, 97, 109, 112, 59]
  else if c = 39 then some [38, 35, 51, 57, 59]
  else if c = 34 then some [38, 113, 117, 111, 116, 59]
  else none

/-- Mirrors the `self.last_carriage_return.take()` step at the top of the
byte loop of `add_text` (lines 1217-1221): a pending carriage return is
flushed as a styled empty span unless the current byte is a line feed. -/
def HtmlRenderer.flush_carriage_return (attribute_callback : Highlight → List Nat)
    (c : Nat) (r : HtmlRenderer) : HtmlRenderer :=
  match r.last_carriage_return with
  | some offset =>
    if c ≠ 10 then
      HtmlRenderer.add_carriage_return { r with last_carriage_return := none }
        offset attribute_callback
    else { r with last_carriage_return := none }
  | none => r

/-- Mirrors the line-boundary step of the byte loop of `add_text`
(lines 1224-1230): close all open tags, write the newline, record the line
offset, and re-open the tags. -/
def HtmlRenderer.newline_step (attribute_callback : Highlight → List Nat)
    (highlights : List Highlight) (r1 : HtmlRenderer) : HtmlRenderer :=
  let r2 := highlights.foldl (fun acc _ => acc.end_highlight) r1
  let r3 := { r2 with html := r2.html ++ [10] }
  let r4 := { r3 with line_offsets := r3.line_offsets ++ [r3.html.length] }
  highlights.foldl (fun acc scope => acc.start_highlight scope attribute_callback) r4

/-- Mirrors one iteration of the byte loop of `HtmlRenderer::add_text`
(lines 1210-1236). -/
def HtmlRenderer.add_text_byte (attribute_callback : Highlight → List Nat)
    (highlights : List Highlight) (r : HtmlRenderer) (c : Nat) : HtmlRenderer :=
  if c = 13 then { r with last_carriage_return := some r.html.length }
  else
    let r1 := r.flush_carriage_return attribute_callback c
    if c = 10 then HtmlRenderer.newline_step attribute_callback highlights r1
    else
      match html_escape c with
      | some escape => { r1 with html := r1.html ++ escape }
      | none => { r1 with html := r1.html ++ [c] }

/-- Mirrors `HtmlRenderer::add_text` (lines 1195-1237).  The external
`LossyUtf8` iterator passes valid UTF-8 through unchanged; replacement of
invalid sequences is outside the model, so the byte stream is the source
slice itself. -/
def HtmlRenderer.add_text (r : HtmlRenderer) (src : List Nat)
    (highlights : List Highlight) (attribute_callback : Highlight → List Nat) :
    HtmlRenderer :=
  src.foldl (HtmlRenderer.add_text_byte attribute_callback highlights) r

/-- Mirrors the event loop of `HtmlRenderer::render` (lines 1120-1136),
returning the renderer and the stack of currently open highlights. -/
def render_loop (attribute_callback : Highlight → List Nat) (source : List Nat) :
    List (Except Error HighlightEvent) → List Highlight → HtmlRenderer →
      Except Error (HtmlRenderer × List Highlight)
  | [], highlights, r => .ok (r, highlights)
  | event :: rest, highlights, r =>
    match event with
    | .ok (.HighlightStart s) =>
      render_loop attribute_callback source rest (highlights ++ [s])
        (r.start_highlight s attribute_callback)
    | .ok .HighlightEnd =>
      render_loop attribute_callback source rest highlights.dropLast r.end_highlight
    | .ok (.Source s e) =>
      render_loop attribute_callback source rest highlights
        (r.add_text ((source.drop s).take (e - s)) highlights attribute_callback)
    | .error a => .error a

/-- Mirrors `HtmlRenderer::render` (lines 1111-1147). -/
def HtmlRenderer.render (r0 : HtmlRenderer)
    (events : List (Except Error HighlightEvent)) (source : List Nat)
    (attribute_callback : Highlight → List Nat) : Except Error HtmlRenderer :=
  match render_loop attribute_callback source events [] r0 with
  | .error a => .error a
  | .ok (r, _) =>
    let r1 :=
      match r.last_carriage_return with
      | some offset =>
        HtmlRenderer.add_carriage_return { r with last_carriage_return := none }
          offset attribute_callback
      | none => r
    let r2 := if r1.html.getLast? ≠ some 10 then { r1 with html := r1.html ++ [10] } else r1
    let r3 :=
      if r2.line_offsets.getLast? = some r2.html.length then
        { r2 with line_offsets := r2.line_offsets.dropLast }
      else r2
    .ok r3

/-! Highlight iterator (`HighlightIter` / `HighlightIterLayer`,
lines 164-1080).  The external parser and query cursor are inputs: each
layer carries its stream of query captures as a list, and construction of
injected layers (which requires parsing) is an oracle parameter. -/

/-- Byte portion of a tree-sitter `Range` (points are line/column data the
embedded code never reads). -/
structure RangeB where
  start_byte : Nat
  end_byte : Nat
  deriving DecidableEq, Repr

/-- Mirrors `struct LocalDef` (lines 150-155). -/
structure LocalDef where
  name : List Nat
  value_range_start : Nat
  value_range_end : Nat
  highlight : Option Highlight
  deriving DecidableEq, Repr

/-- Mirrors `struct LocalScope` (lines 157-162). -/
structure LocalScope where
  inherits : Bool
  range_start : Nat
  range_end : Nat
  local_defs : List LocalDef
  deriving DecidableEq, Repr

/-- The fields of `HighlightConfiguration` read by the iterator.  The
compiled query is represented by its per-pattern property settings;
`language_name` is a byte string. -/
structure HighlightConfiguration where
  language_name : List Nat
  locals_pattern_index : Nat
  highlights_pattern_index : Nat
  highlight_indices : List (Option Highlight)
  non_local_variable_patterns : List Bool
  injection_content_capture_index : Option Nat
  injection_language_capture_index : Option Nat
  local_scope_capture_index : Option Nat
  local_def_capture_index : Option Nat
  local_def_value_capture_index : Option Nat
  local_ref_capture_index : Option Nat
  property_settings : List (List QueryProperty)
  deriving DecidableEq, Repr

/-- Mirrors `struct HighlightIterLayer` (lines 180-189); the tree and cursor
are represented by the capture stream they produce. -/
structure HighlightIterLayer where
  captures : List CapElem
  config : HighlightConfiguration
  highlight_end_stack : List Nat
  scope_stack : List LocalScope
  ranges : List RangeB
  depth : Nat
  deriving DecidableEq, Repr

/-- The implicit global scope seeded at layer creation (lines 606-610). -/
def GLOBAL_SCOPE : LocalScope :=
  { inherits := false, range_start := 0, range_end := USIZE_MAX, local_defs := [] }

/-- The data of one layer produced by `HighlightIterLayer::new`: the capture
stream of the parsed region, its configuration, included ranges and depth. -/
structure LayerDesc where
  captures : List CapElem
  config : HighlightConfiguration
  ranges : List RangeB
  depth : Nat
  deriving DecidableEq, Repr

/-- Mirrors the `HighlightIterLayer` construction of
`HighlightIterLayer::new` (lines 604-617): empty highlight-end stack and a
scope stack holding only the implicit global scope. -/
def mkLayer (d : LayerDesc) : HighlightIterLayer :=
  { captures := d.captures, config := d.config, highlight_end_stack := [],
    scope_stack := [GLOBAL_SCOPE], ranges := d.ranges, depth := d.depth }

/-- Mirrors `HighlightIterLayer::sort_key` (lines 730-749). -/
def HighlightIterLayer.sort_key (l : HighlightIterLayer) : Option (Nat × Bool × Int) :=
  let depth : Int := -(l.depth : Int)
  match l.captures.head?.map (fun c => c.node.start_byte), l.highlight_end_stack.head? with
  | some s, some e => if s < e then some (s, true, depth) else some (e, false, depth)
  | some i, none => some (i, true, depth)
  | none, some j => some (j, false, depth)
  | none, none => none

/-- Strict lexicographic order on sort keys, mirroring the derived `Ord` on
Rust `(usize, bool, isize)` (with `false < true`). -/
def keyLt (a b : Nat × Bool × Int) : Bool :=
  decide (a.1 < b.1) ||
    (decide (a.1 = b.1) &&
      ((!a.2.1 && b.2.1) || (decide (a.2.1 = b.2.1) && decide (a.2.2 < b.2.2))))

/-- The walk of `sort_layers` (lines 779-788): length of the maximal
consecutive prefix of layers whose sort key exists and is strictly below
`k`. -/
def count_lt_key (k : Nat × Bool × Int) : List HighlightIterLayer → Nat
  | [] => 0
  | l :: rest =>
    match l.sort_key with
    | some k2 => if keyLt k2 k then count_lt_key k rest + 1 else 0
    | none => 0

/-- Mirrors `HighlightIter::sort_layers` (lines 776-797) on the layer list:
dead front layers are removed (their cursors go back to the pool, a
performance-only step not modelled), and the front layer is rotated past the
consecutive layers with strictly smaller keys. -/
def sort_layers_list : List HighlightIterLayer → List HighlightIterLayer
  | [] => []
  | l :: rest =>
    match l.sort_key with
    | some k =>
      let i := count_lt_key k rest
      rest.take i ++ l :: rest.drop i
    | none => sort_layers_list rest

/-- The scan of `insert_layer` (lines 799-815) from index 1: insert before
the first layer with a strictly greater key, dropping dead layers passed on
the way; append at the end when no key is greater. -/
def insert_layer_rest (k : Nat × Bool × Int) (layer : HighlightIterLayer) :
    List HighlightIterLayer → List HighlightIterLayer
  | [] => [layer]
  | l :: rest =>
    match l.sort_key with
    | some k2 =>
      if keyLt k k2 then layer :: l :: rest else l :: insert_layer_rest k layer rest
    | none => insert_layer_rest k layer rest

/-- Mirrors `HighlightIter::insert_layer` (lines 799-815): a layer with no
boundary is dropped; otherwise it is inserted behind the current front layer
at its sorted position. -/
def insert_layer (layer : HighlightIterLayer) (layers : List HighlightIterLayer) :
    List HighlightIterLayer :=
  match layer.sort_key with
  | some k =>
    match layers with
    | [] => [layer]
    | first :: rest => first :: insert_layer_rest k layer rest
  | none => layers

/-- Mirrors the mutable state of `HighlightIter` (lines 164-178). -/
structure IterState where
  byte_offset : Nat
  layers : List HighlightIterLayer
  iter_count : Nat
  next_event : Option HighlightEvent
  last_highlight_range : Option (Nat × Nat × Nat)
  deriving DecidableEq, Repr

/-- Argument block of an injection-layer construction: the resolved language
name, content node, include-children flag, the parent layer's included
ranges, and the child depth (`layers[0].depth + 1`). -/
structure InjArgs where
  language_name : List Nat
  content_node : Node
  include_children : Bool
  parent_ranges : List RangeB
  depth : Nat
  deriving DecidableEq, Repr

/-- Immutable parameters of the iterator.  `injection_oracle` models the
composition of the injection callback, `intersect_ranges` and
`HighlightIterLayer::new` (lines 903-929), all of which depend on the
external parser: `none` means the callback declined or the intersected
ranges were empty, `some (.ok descs)` the constructed layers, and
`some (.error e)` a failed construction. -/
structure IterParams where
  source : List Nat
  language_name : List Nat
  cancellation_flag : Option Nat
  injection_oracle : InjArgs → Option (Except Error (List LayerDesc))

/-- Decidable equality for iterator items. -/
instance : DecidableEq (Except Error HighlightEvent) := fun a b =>
  match a, b with
  | .error x, .error y => if h : x = y then .isTrue (by rw [h]) else .isFalse (by simp [h])
  | .ok x, .ok y => if h : x = y then .isTrue (by rw [h]) else .isFalse (by simp [h])
  | .error _, .ok _ => .isFalse (by simp)
  | .ok _, .error _ => .isFalse (by simp)

/-- Result of one `'main` loop iteration: `yield` is a `return` of
`HighlightIter::next` (`none` modelling the iterator returning `None`),
`again` a `continue 'main` or the fall-through at the end of the body. -/
inductive StepRes where
  | yield (item : Option (Except Error HighlightEvent)) (st : IterState)
  | again (st : IterState)
  deriving DecidableEq

/-- Replaces the layer list of the state by its re-sorted form, as every
`self.sort_layers()` call does. -/
def sortLayersState (st : IterState) : IterState :=
  { st with layers := sort_layers_list st.layers }

/-- Writes back the mutated front layer (`&mut self.layers[0]`). -/
def setFront (st : IterState) (layer : HighlightIterLayer)
    (rest : List HighlightIterLayer) : IterState :=
  { st with layers := layer :: rest }

/-- Mirrors `HighlightIter::emit_event` (lines 756-774): when source bytes up
to `offset` are still unreported, a `Source` event is returned and the
accompanying event buffered in `next_event`; the layer list is re-sorted
either way. -/
def emit_event (st : IterState) (offset : Nat) (event : Option HighlightEvent) :
    Option (Except Error HighlightEvent) × IterState :=
  if st.byte_offset < offset then
    (some (.ok (.Source st.byte_offset offset)),
      sortLayersState { st with byte_offset := offset, next_event := event })
  else
    (event.map .ok, sortLayersState st)

/-- Wraps `emit_event` as the `return self.emit_event(...)` statements do. -/
def yieldEmit (st : IterState) (offset : Nat) (event : Option HighlightEvent) : StepRes :=
  match emit_event st offset event with
  | (item, st2) => .yield item st2

/-- Mirrors the scope-stack pruning loop (lines 936-939): pop scopes whose
range ended before the capture's start.  The Rust `last().unwrap()` panics on
an empty stack; the model returns the empty stack, and the scope-stack
invariant theorem shows the stack never empties. -/
def pruneScopes (s : Nat) : List LocalScope → List LocalScope
  | [] => []
  | scope :: rest => if s > scope.range_end then pruneScopes s rest else scope :: rest

/-- Mirrors the `local.scope-inherits` property scan (lines 955-960): the
last matching property wins; a property without value means `true`;
otherwise the value must be the byte string "true". -/
def scopeInheritsOf (props : List QueryProperty) : Bool :=
  props.foldl
    (fun inherits prop =>
      if prop.key = "local.scope-inherits" then
        match prop.value with
        | none => true
        | some v => decide (v = TRUE_BYTES)
      else inherits)
    true

/-- Mirrors the `local.definition-value` sibling scan (lines 970-975): the
last value capture of the match wins; default `0..0`. -/
def defValueRange (cfg : HighlightConfiguration) (caps : List QCapture) : Nat × Nat :=
  caps.foldl
    (fun vr c =>
      if some c.index = cfg.local_def_value_capture_index then
        (c.node.start_byte, c.node.end_byte)
      else vr)
    (0, 0)

/-- Mirrors the `find_map` over a scope's definitions (lines 995-1001), most
recent definition first: the first definition with a byte-equal name whose
initializer ends at or before the reference's start yields its (possibly
absent) highlight. -/
def lookupDefs (name : List Nat) (s : Nat) : List LocalDef → Option (Option Highlight)
  | [] => none
  | d :: rest =>
    if d.name = name ∧ s ≥ d.value_range_end then some d.highlight
    else lookupDefs name s rest

/-- Mirrors the scope-stack walk of the `local.reference` branch
(lines 994-1008): innermost scope first, stopping after the first
non-inheriting scope. -/
def resolveRef (name : List Nat) (s : Nat) : List LocalScope → Option (Option Highlight)
  | [] => none
  | scope :: rest =>
    match lookupDefs name s scope.local_defs with
    | some h => some h
    | none => if !scope.inherits then none else resolveRef name s rest

/-- Mirrors the body of the locals `while` loop (lines 945-1010) for one
capture: returns the updated scope stack, `reference_highlight`, and whether
`definition_highlight` is set.  When set, the Rust borrow always denotes the
`highlight` field of the most recent definition of the top scope: the scope
branch and the definition branch, the only ones that could invalidate that
description, both reset the borrow first. -/
def localsProcess (cfg : HighlightConfiguration) (source : List Nat) (range : Node)
    (cur : CapElem) (scopes : List LocalScope) (refH : Option Highlight) (defSet : Bool) :
    List LocalScope × Option Highlight × Bool :=
  if some cur.cap.index = cfg.local_scope_capture_index then
    ({ inherits := scopeInheritsOf (cfg.property_settings.getD cur.pattern_index []),
       range_start := range.start_byte, range_end := range.end_byte,
       local_defs := [] } :: scopes, refH, false)
  else if some cur.cap.index = cfg.local_def_capture_index then
    let vr := defValueRange cfg cur.captures
    match scopes with
    | scope :: others =>
      match sliceUtf8 source range with
      | some name =>
        ({ scope with local_defs :=
            { name := name, value_range_start := vr.1, value_range_end := vr.2,
              highlight := none } :: scope.local_defs } :: others, none, true)
      | none => (scope :: others, none, false)
    | [] => ([], none, false)
  else if some cur.cap.index = cfg.local_ref_capture_index ∧ defSet = false then
    (scopes,
     (match sliceUtf8 source range with
      | some name => (resolveRef name range.start_byte scopes).getD refH
      | none => refH),
     false)
  else (scopes, refH, defSet)

/-- Exit of the locals loop: `exitMain` is the `continue 'main` at line 1023,
`toHighlight` the fall-through into the highlight section. -/
inductive LocalsRes where
  | exitMain (caps : List CapElem) (scopes : List LocalScope)
  | toHighlight (cur : CapElem) (caps : List CapElem) (scopes : List LocalScope)
      (refH : Option Highlight) (defSet : Bool)
  deriving DecidableEq

/-- Mirrors the locals `while` loop (lines 945-1024) including the same-node
merge step (lines 1012-1020): further captures on the same node are consumed
and processed in turn; `range` stays the byte range of the original node. -/
def localsLoop (cfg : HighlightConfiguration) (source : List Nat) (range : Node)
    (cur : CapElem) (caps : List CapElem) (scopes : List LocalScope)
    (refH : Option Highlight) (defSet : Bool) : LocalsRes :=
  if cur.pattern_index < cfg.highlights_pattern_index then
    match localsProcess cfg source range cur scopes refH defSet with
    | (scopes2, refH2, defSet2) =>
      match caps with
      | nxt :: caps2 =>
        if nxt.node = cur.node then
          localsLoop cfg source range nxt caps2 scopes2 refH2 defSet2
        else .exitMain caps scopes2
      | [] => .exitMain [] scopes2
  else .toHighlight cur caps scopes refH defSet

/-- Mirrors the same-node highlight collapse loop (lines 1041-1059):
successors on the same node replace the current capture, removing the
replaced match's remaining captures from the stream, except that successors
whose pattern is marked `non_local_variable` are skipped (and merely
consumed) when the node is a local definition or reference. -/
def collapseLoopAux (cfg : HighlightConfiguration) (is_local : Bool) :
    Nat → CapElem → List CapElem → CapElem × List CapElem
  | _, cur, [] => (cur, [])
  | 0, cur, caps => (cur, caps)
  | fuel + 1, cur, nxt :: rest =>
    if nxt.node = cur.node then
      if is_local && cfg.non_local_variable_patterns.getD nxt.pattern_index false then
        collapseLoopAux cfg is_local fuel cur rest
      else
        collapseLoopAux cfg is_local fuel nxt
          (rest.filter (fun c => c.match_id ≠ cur.match_id))
    else (cur, nxt :: rest)

/-- The loop of `collapseLoopAux` with enough fuel to consume the whole
stream (each step consumes at least one element, so `caps.length` loop steps
suffice; the zero-fuel fallback is unreachable). -/
def collapseLoop (cfg : HighlightConfiguration) (is_local : Bool) (cur : CapElem)
    (caps : List CapElem) : CapElem × List CapElem :=
  collapseLoopAux cfg is_local caps.length cur caps

/-- Mirrors `*definition_highlight = current_highlight` (lines 1065-1067):
write into the most recent definition of the top scope. -/
def writeDefHighlight (h : Option Highlight) : List LocalScope → List LocalScope
  | [] => []
  | scope :: rest =>
    match scope.local_defs with
    | [] => scope :: rest
    | d :: ds => { scope with local_defs := { d with highlight := h } :: ds } :: rest

/-- Mirrors `injection_for_match` (lines 1240-1302): scan the match's
captures for the language and content captures, then apply the pattern's
property settings in order. -/
def injection_for_match (cfg : HighlightConfiguration) (parent_name : Option (List Nat))
    (mat : CapElem) (source : List Nat) : Option (List Nat) × Option Node × Bool :=
  let scanned :=
    mat.captures.foldl
      (fun (acc : Option (List Nat) × Option Node) capture =>
        if some capture.index = cfg.injection_language_capture_index then
          (sliceUtf8 source capture.node, acc.2)
        else if some capture.index = cfg.injection_content_capture_index then
          (acc.1, some capture.node)
        else acc)
      (none, none)
  (cfg.property_settings.getD mat.pattern_index []).foldl
    (fun (acc : Option (List Nat) × Option Node × Bool) prop =>
      if prop.key = "injection.language" then
        (if acc.1 = none then prop.value else acc.1, acc.2.1, acc.2.2)
      else if prop.key = "injection.self" then
        (if acc.1 = none then some cfg.language_name else acc.1, acc.2.1, acc.2.2)
      else if prop.key = "injection.parent" then
        (if acc.1 = none then parent_name else acc.1, acc.2.1, acc.2.2)
      else if prop.key = "injection.include-children" then
        (acc.1, acc.2.1, true)
      else acc)
    (scanned.1, scanned.2, false)

/-- The cross-layer dedupe test (lines 1029-1034). -/
def dedupeHit (last : Option (Nat × Nat × Nat)) (range : Node) (depth : Nat) : Bool :=
  match last with
  | some (ls, le, ld) =>
    decide (range.start_byte = ls) && decide (range.end_byte = le) && decide (depth < ld)
  | none => false

/-- Mirrors the injection branch of `next` (lines 887-934): the match is
removed from the stream, the injection metadata extracted, and any layers the
oracle constructs are inserted; a construction error is returned as an
iterator item. -/
def injectionStep (p : IterParams) (st : IterState) (layer : HighlightIterLayer)
    (rest : List HighlightIterLayer) (ne : CapElem) : StepRes :=
  let info := injection_for_match layer.config (some p.language_name) ne p.source
  let caps2 := (layer.captures.tail).filter (fun c => c.match_id ≠ ne.match_id)
  let st2 := setFront st { layer with captures := caps2 } rest
  match info.1, info.2.1 with
  | some lang, some cnode =>
    match p.injection_oracle ⟨lang, cnode, info.2.2, layer.ranges, layer.depth + 1⟩ with
    | some (.error e) => .yield (some (.error e)) st2
    | some (.ok descs) =>
      .again (sortLayersState
        { st2 with
          layers := descs.foldl (fun ls d => insert_layer (mkLayer d) ls) st2.layers })
    | none => .again (sortLayersState st2)
  | _, _ => .again (sortLayersState st2)

/-- Mirrors the highlight section of `next` (lines 1026-1077): cross-layer
dedupe, same-node collapse, definition binding, and emission of the start
event when an effective highlight exists. -/
def highlightStep (st : IterState) (layer : HighlightIterLayer)
    (rest : List HighlightIterLayer) (range : Node) (cur : CapElem) (caps : List CapElem)
    (scopes : List LocalScope) (refH : Option Highlight) (defSet : Bool) : StepRes :=
  if dedupeHit st.last_highlight_range range layer.depth then
    .again (sortLayersState
      (setFront st { layer with captures := caps, scope_stack := scopes } rest))
  else
    match collapseLoop layer.config (defSet || refH.isSome) cur caps with
    | (capF, capsF) =>
      let current_highlight := layer.config.highlight_indices.getD capF.cap.index none
      let scopes2 := if defSet then writeDefHighlight current_highlight scopes else scopes
      match refH.or current_highlight with
      | some h =>
        let layer2 :=
          { layer with
            captures := capsF
            scope_stack := scopes2
            highlight_end_stack := range.end_byte :: layer.highlight_end_stack }
        let st2 :=
          { setFront st layer2 rest with
            last_highlight_range := some (range.start_byte, range.end_byte, layer.depth) }
        yieldEmit st2 range.start_byte (some (.HighlightStart h))
      | none =>
        .again (sortLayersState
          (setFront st { layer with captures := capsF, scope_stack := scopes2 } rest))

/-- Mirrors the capture processing of `next` after the front capture is
consumed (lines 884-1077): injection branch, scope pruning, locals loop, and
highlight section. -/
def processCapture (p : IterParams) (st : IterState) (layer : HighlightIterLayer)
    (rest : List HighlightIterLayer) (ne : CapElem) : StepRes :=
  if ne.pattern_index < layer.config.locals_pattern_index then
    injectionStep p st layer rest ne
  else
    let scopes0 := pruneScopes ne.node.start_byte layer.scope_stack
    match localsLoop layer.config p.source ne.node ne layer.captures.tail scopes0 none false with
    | .exitMain caps2 scopes2 =>
      .again (sortLayersState
        (setFront st { layer with captures := caps2, scope_stack := scopes2 } rest))
    | .toHighlight cur caps2 scopes2 refH defSet =>
      highlightStep st layer rest ne.node cur caps2 scopes2 refH defSet

/-- Mirrors the front-layer step of `next` (lines 857-884): emit a pending
highlight end that closes before the next capture, otherwise consume and
process the capture; with no capture left, drain the end stack and finally
report the document tail. -/
def frontStep (p : IterParams) (st : IterState) (layer : HighlightIterLayer)
    (rest : List HighlightIterLayer) : StepRes :=
  match layer.captures.head? with
  | some ne =>
    match layer.highlight_end_stack with
    | e :: es =>
      if e ≤ ne.node.start_byte then
        yieldEmit (setFront st { layer with highlight_end_stack := es } rest) e
          (some .HighlightEnd)
      else processCapture p st layer rest ne
    | [] => processCapture p st layer rest ne
  | none =>
    match layer.highlight_end_stack with
    | e :: es =>
      yieldEmit (setFront st { layer with highlight_end_stack := es } rest) e
        (some .HighlightEnd)
    | [] => yieldEmit st p.source.length none

/-- Mirrors lines 843-884 of `next`: the exhausted-layers tail emission, or
the front-layer step. -/
def mainStep (p : IterParams) (st : IterState) : StepRes :=
  match st.layers with
  | [] =>
    if st.byte_offset < p.source.length then
      .yield (some (.ok (.Source st.byte_offset p.source.length)))
        { st with byte_offset := p.source.length }
    else .yield none st
  | layer :: rest => frontStep p st layer rest

/-- Mirrors one iteration of the labelled `'main` loop of
`HighlightIter::next` (lines 824-1078): buffered event, periodic
cancellation check, then the main step. -/
def stepOnce (p : IterParams) (st : IterState) : StepRes :=
  match st.next_event with
  | some e => .yield (some (.ok e)) { st with next_event := none }
  | none =>
    match p.cancellation_flag with
    | some flag =>
      if st.iter_count + 1 ≥ CANCELLATION_CHECK_INTERVAL then
        if flag ≠ 0 then .yield (some (.error .Cancelled)) { st with iter_count := 0 }
        else mainStep p { st with iter_count := 0 }
      else mainStep p { st with iter_count := st.iter_count + 1 }
    | none => mainStep p st

/-- Runs `'main` loop iterations until the Rust function returns: one call of
`HighlightIter::next`.  `none` means the fuel was exhausted. -/
def runNext (p : IterParams) : Nat → IterState →
    Option (Option (Except Error HighlightEvent) × IterState)
  | 0, _ => none
  | fuel + 1, st =>
    match stepOnce p st with
    | .yield item st2 => some (item, st2)
    | .again st2 => runNext p fuel st2

/-- Drains the iterator: repeated calls of `next`, collecting the returned
items until a call returns `None`.  The fuel bounds the total number of
`'main` loop iterations; `none` means the fuel was exhausted. -/
def drainN (p : IterParams) : Nat → IterState → Option (List (Except Error HighlightEvent))
  | 0, _ => none
  | fuel + 1, st =>
    match stepOnce p st with
    | .again st2 => drainN p fuel st2
    | .yield none _ => some []
    | .yield (some item) st2 => (drainN p fuel st2).map (fun items => item :: items)

/-- Mirrors the iterator construction in `Highlighter::highlight`
(lines 283-320): the root-layer descriptors (the external parse of the
document plus any eagerly built combined-injection layers) become layers with
fresh stacks, and the layer list is sorted once. -/
def initState (descs : List LayerDesc) : IterState :=
  { byte_offset := 0, layers := sort_layers_list (descs.map mkLayer),
    iter_count := 0, next_event := none, last_highlight_range := none }

/-! Derived predicates and measures used to state the iterator theorems. -/

/-- The front layer (when any) has a pending boundary.  `sort_layers`
establishes this after every emission; it can only be broken by the error
return of the injection branch, which skips the re-sort. -/
def frontOk (layers : List HighlightIterLayer) : Prop :=
  match layers with
  | [] => True
  | l :: _ => l.sort_key ≠ none

/-- The next `k` calls of `next` all return `None`. -/
def YieldsNoneForever (p : IterParams) : Nat → IterState → Prop
  | 0, _ => True
  | k + 1, st => ∃ st2, stepOnce p st = .yield none st2 ∧ YieldsNoneForever p k st2

/-- A scope stack whose bottom entry is the implicit global scope: inherits
nothing, spans `0..usize::MAX` (its definition list grows while it is the top
scope). -/
def scopesOkStack : List LocalScope → Prop
  | [] => False
  | [s] => s.inherits = false ∧ s.range_start = 0 ∧ s.range_end = USIZE_MAX
  | _ :: rest => scopesOkStack rest

/-- Spec-side description of the scopes a reference can see: the stack from
innermost outward, truncated just after the first non-inheriting scope. -/
def scopesUpToBarrier : List LocalScope → List LocalScope
  | [] => []
  | s :: rest => if s.inherits then s :: scopesUpToBarrier rest else [s]

/-- All definitions of a scope list, most recently added first within each
scope, innermost scope first. -/
def allDefs : List LocalScope → List LocalDef
  | [] => []
  | sc :: rest => sc.local_defs ++ allDefs rest

/-- Number of `HighlightStart` items in an event list. -/
def startsCount (items : List (Except Error HighlightEvent)) : Nat :=
  items.countP (fun it =>
    match it with
    | .ok (.HighlightStart _) => true
    | _ => false)

/-- Number of `HighlightEnd` items in an event list. -/
def endsCount (items : List (Except Error HighlightEvent)) : Nat :=
  items.countP (fun it =>
    match it with
    | .ok .HighlightEnd => true
    | _ => false)

/-- The `Source` spans of an event list, in emission order. -/
def sourceSpans (items : List (Except Error HighlightEvent)) : List (Nat × Nat) :=
  items.filterMap (fun it =>
    match it with
    | .ok (.Source s e) => some (s, e)
    | _ => none)

/-- The spans form a gapless, overlap-free chain from `o` to `z`: each span
starts where the previous ended, is non-empty, and the chain starts at `o`
and ends at `z`. -/
def chainFrom : Nat → List (Nat × Nat) → Nat → Prop
  | o, [], z => o = z
  | o, (s, e) :: rest, z => s = o ∧ o < e ∧ chainFrom e rest z

/-- An event list contains no error item. -/
def errorFree (items : List (Except Error HighlightEvent)) : Prop :=
  ∀ e : Error, Except.error e ∉ items

/-- Total number of pending highlight ends across all layers. -/
def stackSum (layers : List HighlightIterLayer) : Nat :=
  (layers.map (fun l => l.highlight_end_stack.length)).sum

/-- Contribution of the buffered event to the bracket balance: a buffered
start was accounted on its layer's stack but not yet emitted, a buffered end
was already popped but not yet emitted. -/
def bufferedDelta : Option HighlightEvent → Int
  | some (.HighlightStart _) => -1
  | some .HighlightEnd => 1
  | _ => 0

/-- Balance potential of a state: emitted starts minus emitted ends always
equals this quantity. -/
def phi (st : IterState) : Int :=
  (stackSum st.layers : Int) + bufferedDelta st.next_event

/-- Balance contribution of one returned item. -/
def itemBalance : Except Error HighlightEvent → Int
  | .ok (.HighlightStart _) => 1
  | .ok .HighlightEnd => -1
  | _ => 0

/-- Sum of the balance contributions of an item list. -/
def itemsBalance (items : List (Except Error HighlightEvent)) : Int :=
  (items.map itemBalance).sum

/-- All capture nodes of a layer lie within the source (their ranges are real
node ranges of a tree parsed from it). -/
def LayerInBounds (len : Nat) (l : HighlightIterLayer) : Prop :=
  (∀ c ∈ l.captures, c.node.start_byte ≤ len ∧ c.node.end_byte ≤ len) ∧
  (∀ e ∈ l.highlight_end_stack, e ≤ len)

/-- All layers of the state are in bounds and the byte offset has not passed
the end of the source. -/
def StateInBounds (len : Nat) (st : IterState) : Prop :=
  (∀ l ∈ st.layers, LayerInBounds len l) ∧ st.byte_offset ≤ len

/-- Every layer the oracle constructs has its capture nodes within the
source. -/
def OracleInBounds (len : Nat) (p : IterParams) : Prop :=
  ∀ args descs, p.injection_oracle args = some (.ok descs) →
    ∀ d ∈ descs, ∀ c ∈ d.captures, c.node.start_byte ≤ len ∧ c.node.end_byte ≤ len

/-- Buffered-start accounting: a buffered `HighlightStart` implies at least
one pending end on some stack (namely the one pushed when it was buffered). -/
def BufferOk (st : IterState) : Prop :=
  ∀ h, st.next_event = some (.HighlightStart h) → 1 ≤ stackSum st.layers

/-- The scope stack carried by a locals-loop result. -/
def LocalsRes.scopes : LocalsRes → List LocalScope
  | .exitMain _ scopes => scopes
  | .toHighlight _ _ scopes _ _ => scopes

/-- The remaining capture stream carried by a locals-loop result. -/
def LocalsRes.caps : LocalsRes → List CapElem
  | .exitMain caps _ => caps
  | .toHighlight _ caps _ _ _ => caps

/-- The state carried by a step result. -/
def StepRes.state : StepRes → IterState
  | .yield _ st => st
  | .again st => st

/-- A layer of the next state that descends from layer `l` of the previous
state: same configuration, ranges and depth; captures form a sub-sequence of
the old stream; every pending end was pending before or is the end byte of
an old capture's node; and a valid scope stack over bounded capture starts
is carried to a valid scope stack. -/
def LayerStep (l a : HighlightIterLayer) : Prop :=
  a.captures.Sublist l.captures ∧ a.config = l.config ∧ a.depth = l.depth ∧
  a.ranges = l.ranges ∧
  (∀ e ∈ a.highlight_end_stack, e ∈ l.highlight_end_stack ∨
    ∃ c ∈ l.captures, e = c.node.end_byte) ∧
  ((∀ c ∈ l.captures, c.node.start_byte ≤ USIZE_MAX) → scopesOkStack l.scope_stack →
    scopesOkStack a.scope_stack)

/-- A layer built by the injection oracle. -/
def OracleMade (p : IterParams) (a : HighlightIterLayer) : Prop :=
  ∃ args descs d, p.injection_oracle args = some (.ok descs) ∧ d ∈ descs ∧ a = mkLayer d

/-- No `Source` event is ever buffered: only `HighlightStart` and
`HighlightEnd` pass through `next_event`. -/
def NoBufferedSource (st : IterState) : Prop :=
  ∀ s e, st.next_event ≠ some (.Source s e)

/-- The state invariants threaded through the drain, apart from the
front-layer invariant: buffered-start accounting, no buffered `Source`, and
in-bounds layers and byte offset. -/
def IterInvB (p : IterParams) (st : IterState) : Prop :=
  BufferOk st ∧ NoBufferedSource st ∧ StateInBounds p.source.length st

/-- Facts holding after a `continue 'main` step. -/
def AgainFacts (p : IterParams) (st st2 : IterState) : Prop :=
  BufferOk st2 ∧ NoBufferedSource st2 ∧ st2.byte_offset ≤ p.source.length ∧
  frontOk st2.layers ∧ phi st2 = phi st ∧ st2.byte_offset = st.byte_offset

/-- Facts holding after `next` returns an item. -/
def YieldFacts (p : IterParams) (st : IterState) (item : Except Error HighlightEvent)
    (st2 : IterState) : Prop :=
  BufferOk st2 ∧ NoBufferedSource st2 ∧ st2.byte_offset ≤ p.source.length ∧
  phi st2 = phi st + itemBalance item ∧
  (frontOk st.layers → (frontOk st2.layers ∨ ∃ er, item = .error er)) ∧
  (∀ s e, item = .ok (.Source s e) →
    s = st.byte_offset ∧ e = st2.byte_offset ∧ s < e) ∧
  ((∀ s e, item ≠ .ok (.Source s e)) → st2.byte_offset = st.byte_offset)

/-- Facts holding after `next` returns `None`. -/
def NoneFacts (p : IterParams) (st st2 : IterState) : Prop :=
  st2.byte_offset = st.byte_offset ∧ p.source.length ≤ st.byte_offset ∧
  (frontOk st.layers → phi st = 0)

/-- The accounting facts of one `'main` loop iteration, by outcome. -/
def StepFacts (p : IterParams) (st : IterState) : StepRes → Prop
  | .again st2 => AgainFacts p st st2
  | .yield (some item) st2 => YieldFacts p st item st2
  | .yield none st2 => NoneFacts p st st2

/-! Concrete scenario data used by witnesses and counterexamples. -/

/-- A configuration whose single pattern is a highlight pattern with capture
0 mapped to highlight 7. -/
def cfg_simple : HighlightConfiguration :=
  { language_name := [], locals_pattern_index := 0, highlights_pattern_index := 0,
    highlight_indices := [some ⟨7⟩], non_local_variable_patterns := [],
    injection_content_capture_index := none, injection_language_capture_index := none,
    local_scope_capture_index := none, local_def_capture_index := none,
    local_def_value_capture_index := none, local_ref_capture_index := none,
    property_settings := [] }

/-- A root layer over a three-byte source with one highlight capture on the
node spanning bytes 1..2. -/
def desc_simple : LayerDesc :=
  { captures := [⟨0, 5, [⟨⟨0, 1, 2⟩, 0⟩], 0⟩], config := cfg_simple,
    ranges := [⟨0, 3⟩], depth := 0 }

/-- Parameters for the simple scenario: no cancellation flag, no
injections. -/
def params_simple : IterParams :=
  { source := [97, 98, 99], language_name := [], cancellation_flag := none,
    injection_oracle := fun _ => none }

/-- The simple scenario with the cancellation flag set to 1 before the first
call. -/
def params_simple_cancel : IterParams :=
  { source := [97, 98, 99], language_name := [], cancellation_flag := some 1,
    injection_oracle := fun _ => none }

/-- A configuration with one injection pattern (pattern 0) whose language is
supplied by an `injection.language` property; capture index 0 is the
`injection.content` capture. -/
def cfg_inject : HighlightConfiguration :=
  { language_name := [], locals_pattern_index := 1, highlights_pattern_index := 1,
    highlight_indices := [none], non_local_variable_patterns := [],
    injection_content_capture_index := some 0, injection_language_capture_index := some 1,
    local_scope_capture_index := none, local_def_capture_index := none,
    local_def_value_capture_index := none, local_ref_capture_index := none,
    property_settings := [[⟨"injection.language", some [114]⟩]] }

/-- A root layer over a one-byte source whose only capture is an injection
content capture. -/
def desc_inject : LayerDesc :=
  { captures := [⟨0, 0, [⟨⟨0, 0, 1⟩, 0⟩], 0⟩], config := cfg_inject,
    ranges := [⟨0, 1⟩], depth := 0 }

/-- Parameters whose injection oracle fails with `InvalidLanguage` (the
injected language cannot be assigned to the parser). -/
def params_inject : IterParams :=
  { source := [97], language_name := [], cancellation_flag := none,
    injection_oracle := fun _ => some (.error .InvalidLanguage) }

/-- A configuration with locals patterns 0..4 and highlight patterns from 5:
capture 0 is `local.scope`, capture 1 is `local.definition`, capture 2 is
`local.reference`; capture 3 is a highlight capture mapped to highlight 9. -/
def cfg_locals : HighlightConfiguration :=
  { language_name := [], locals_pattern_index := 0, highlights_pattern_index := 5,
    highlight_indices := [none, none, none, some ⟨9⟩], non_local_variable_patterns := [],
    injection_content_capture_index := none, injection_language_capture_index := none,
    local_scope_capture_index := some 0, local_def_capture_index := some 1,
    local_def_value_capture_index := none, local_ref_capture_index := some 2,
    property_settings := [] }

/-- A scope stack holding the global scope with one definition of the name
`x` (byte 120) carrying highlight 4. -/
def scopes_locals : List LocalScope :=
  [{ inherits := false, range_start := 0, range_end := USIZE_MAX,
     local_defs := [⟨[120], 0, 0, some ⟨4⟩⟩] }]

/-- A reference capture on the node spanning bytes 5..6 (the byte `x`). -/
def ref_elem : CapElem := ⟨0, 2, [⟨⟨1, 5, 6⟩, 2⟩], 0⟩

/-- A highlight capture on the same node, whose own pattern highlight is 9. -/
def hl_elem : CapElem := ⟨1, 7, [⟨⟨1, 5, 6⟩, 3⟩], 0⟩

/-- The front layer of the local-reference scenario. -/
def layer_locals : HighlightIterLayer :=
  { captures := [ref_elem, hl_elem], config := cfg_locals, highlight_end_stack := [],
    scope_stack := scopes_locals, ranges := [⟨0, 6⟩], depth := 0 }

/-- The iterator state of the local-reference scenario, positioned at byte 5. -/
def st_locals : IterState :=
  { byte_offset := 5, layers := [layer_locals], iter_count := 0,
    next_event := none, last_highlight_range := none }

/-- Parameters of the local-reference scenario: six source bytes ending in
`x`. -/
def params_locals : IterParams :=
  { source := [97, 97, 97, 97, 97, 120], language_name := [],
    cancellation_flag := none, injection_oracle := fun _ => none }

/-- A capture element used by the dedupe scenario: a highlight capture on the
node spanning bytes 1..2. -/
def dedupe_elem : CapElem := ⟨0, 3, [⟨⟨0, 1, 2⟩, 0⟩], 0⟩

/-- The front layer of the dedupe scenario (depth 0). -/
def layer_dedupe : HighlightIterLayer :=
  { captures := [dedupe_elem], config := cfg_simple, highlight_end_stack := [],
    scope_stack := [GLOBAL_SCOPE], ranges := [⟨0, 3⟩], depth := 0 }

/-- The iterator state of the dedupe scenario: the last emitted highlight
covered bytes 1..2 at depth 5. -/
def st_dedupe : IterState :=
  { byte_offset := 1, layers := [layer_dedupe], iter_count := 0,
    next_event := none, last_highlight_range := some (1, 2, 5) }

/-! ## Theorems -/

/-- Helper: the fold of `pattern_boundary_indices` counts, for each component,
the offsets below the respective section boundary. -/
theorem pattern_boundary_indices_aux (lo ho : Nat) :
    ∀ (offs : List Nat) (a b : Nat),
      offs.foldl
        (fun acc pattern_offset =>
          if pattern_offset < ho then
            (if pattern_offset < lo then acc.1 + 1 else acc.1,
             if pattern_offset < ho then acc.2 + 1 else acc.2)
          else acc)
        (a, b) =
      (a + offs.countP (fun o => decide (o < ho) && decide (o < lo)),
       b + offs.countP (fun o => decide (o < ho))) := by
  intro offs
  induction offs with
  | nil => intro a b; simp
  | cons o rest ih =>
    intro a b
    by_cases hho : o < ho
    · by_cases hlo : o < lo
      · simp only [List.foldl_cons, List.countP_cons, hho, hlo, if_true, ih,
          decide_true_eq_true, Bool.and_true, Bool.and_self, if_pos]
        simp [hho, hlo]
        omega
      · simp only [List.foldl_cons, List.countP_cons, if_pos hho, if_neg hlo, ih]
        simp [hho, hlo]
        omega
    · simp only [List.foldl_cons, List.countP_cons, if_neg hho, ih]
      simp [hho]

/-- Helper: on a non-decreasing list, the number of elements below a bound is
the index of the first element at or beyond it. -/
theorem countP_lt_eq_findIdx_le (X : Nat) :
    ∀ (l : List Nat), l.Pairwise (· ≤ ·) →
      l.countP (fun o => decide (o < X)) = l.findIdx (fun o => decide (X ≤ o)) := by
  intro l
  induction l with
  | nil => intro _; simp
  | cons h t ih =>
    intro hp
    rcases List.pairwise_cons.mp hp with ⟨hle, hp2⟩
    by_cases hX : h < X
    · have hnot : ¬ (X ≤ h) := by omega
      simp [List.countP_cons, List.findIdx_cons, hX, hnot, ih hp2]
    · have h0 : X ≤ h := by omega
      have hz : t.countP (fun o => decide (o < X)) = 0 := by
        rw [List.countP_eq_zero]
        intro a ha
        have := hle a ha
        simp
        omega
      simp [List.countP_cons, List.findIdx_cons, hX, h0, hz]

/-- C5: for every triple of query strings and every non-decreasing list of
per-pattern start offsets of the compiled query, `HighlightConfiguration::new`
computes `locals_pattern_index` as the index of the first pattern whose start
offset in the concatenated query source is at or after the locals-section
offset, and `highlights_pattern_index` as the index of the first pattern
whose start offset is at or after the highlights-section offset. -/
theorem new_pattern_indices_spec (q : QuerySources) (pattern_offsets : List Nat)
    (hmono : pattern_offsets.Pairwise (· ≤ ·)) :
    pattern_boundary_indices pattern_offsets
        q.locals_query_offset q.highlights_query_offset =
      (pattern_offsets.findIdx (fun o => decide (q.locals_query_offset ≤ o)),
       pattern_offsets.findIdx (fun o => decide (q.highlights_query_offset ≤ o))) := by
  have hlh : q.locals_query_offset ≤ q.highlights_query_offset := by
    simp [QuerySources.locals_query_offset, QuerySources.highlights_query_offset]
  rw [pattern_boundary_indices, pattern_boundary_indices_aux]
  have hpred :
      (fun o => decide (o < q.highlights_query_offset) &&
          decide (o < q.locals_query_offset)) =
        (fun o => decide (o < q.locals_query_offset)) := by
    funext o
    by_cases h : o < q.locals_query_offset
    · have : o < q.highlights_query_offset := by omega
      simp [h, this]
    · simp [h]
  rw [hpred]
  simp [countP_lt_eq_findIdx_le _ _ hmono]

/-- Witness for C5 at a concrete input: offsets `[3, 5, 9]`, section offsets
4 and 7 from `qsW`. -/
theorem new_pattern_indices_spec_witness :
    ([3, 5, 9] : List Nat).Pairwise (· ≤ ·) ∧
    pattern_boundary_indices [3, 5, 9]
        qsW.locals_query_offset qsW.highlights_query_offset =
      ([3, 5, 9].findIdx (fun o => decide (qsW.locals_query_offset ≤ o)),
       [3, 5, 9].findIdx (fun o => decide (qsW.highlights_query_offset ≤ o))) :=
  ⟨by decide, new_pattern_indices_spec qsW [3, 5, 9] (by decide)⟩

/-- Helper: full characterisation of `best_index_loop`.  Either the
accumulator survives (and then no candidate beats `best_match_len`), or the
result designates a matching candidate of maximal part count, the first one
attaining that count. -/
theorem best_index_loop_spec (capture_parts : List (List Nat)) :
    ∀ (names : List (List Nat)) (i0 : Nat) (b : Option Nat) (bl : Nat),
      (let r := best_index_loop capture_parts names i0 b bl
      (r.1 = b ∧ r.2 = bl ∧
        ∀ k (hk : k < names.length),
          recognized_matches capture_parts (names.get ⟨k, hk⟩) →
            recognized_len (names.get ⟨k, hk⟩) ≤ bl) ∨
      (∃ k, ∃ hk : k < names.length,
        r.1 = some (i0 + k) ∧
        r.2 = recognized_len (names.get ⟨k, hk⟩) ∧
        recognized_matches capture_parts (names.get ⟨k, hk⟩) = true ∧
        bl < r.2 ∧
        (∀ m (hm : m < names.length),
          recognized_matches capture_parts (names.get ⟨m, hm⟩) →
            recognized_len (names.get ⟨m, hm⟩) ≤ r.2 ∧
            (m < k → recognized_len (names.get ⟨m, hm⟩) < r.2)))) := by
  intro names
  induction names with
  | nil =>
    intro i0 b bl
    left
    refine ⟨rfl, rfl, ?_⟩
    intro k hk
    exact absurd hk (by simp)
  | cons rn rest ih =>
    intro i0 b bl
    by_cases hc : recognized_matches capture_parts rn ∧ bl < recognized_len rn
    · have hstep :
          best_index_loop capture_parts (rn :: rest) i0 b bl =
            best_index_loop capture_parts rest (i0 + 1) (some i0) (recognized_len rn) := by
        simp [best_index_loop, hc]
      rw [hstep]
      rcases ih (i0 + 1) (some i0) (recognized_len rn) with hleft | hright
      · rcases hleft with ⟨h1, h2, h3⟩
        right
        refine ⟨0, by simp, ?_, ?_, ?_, ?_, ?_⟩
        · simpa using h1
        · simpa using h2
        · simpa using hc.1
        · rw [h2]; exact hc.2
        · intro m hm hmat
          match m with
          | 0 => exact ⟨by rw [h2]; simp, by omega⟩
          | Nat.succ m1 =>
            have hm1 : m1 < rest.length := by simpa using hm
            have := h3 m1 hm1 (by simpa using hmat)
            refine ⟨?_, ?_⟩
            · rw [h2]; simpa using this
            · omega
      · rcases hright with ⟨k, hk, h1, h2, h3, h4, h5⟩
        right
        refine ⟨k + 1, by simpa using Nat.succ_lt_succ hk, ?_, ?_, ?_, ?_, ?_⟩
        · rw [h1]; congr 1; omega
        · simpa using h2
        · simpa using h3
        · omega
        · intro m hm hmat
          match m with
          | 0 =>
            refine ⟨?_, ?_⟩
            · have : recognized_len rn < (best_index_loop capture_parts rest (i0 + 1)
                  (some i0) (recognized_len rn)).2 := h4
              simp at hmat ⊢
              omega
            · intro _
              have : recognized_len rn < (best_index_loop capture_parts rest (i0 + 1)
                  (some i0) (recognized_len rn)).2 := h4
              simpa using this
          | Nat.succ m1 =>
            have hm1 : m1 < rest.length := by simpa using hm
            have := h5 m1 hm1 (by simpa using hmat)
            refine ⟨by simpa using this.1, ?_⟩
            intro hlt
            exact this.2 (by omega)
    · have hstep :
          best_index_loop capture_parts (rn :: rest) i0 b bl =
            best_index_loop capture_parts rest (i0 + 1) b bl := by
        simp [best_index_loop, hc]
      rw [hstep]
      rcases ih (i0 + 1) b bl with hleft | hright
      · rcases hleft with ⟨h1, h2, h3⟩
        left
        refine ⟨h1, h2, ?_⟩
        intro k hk hmat
        match k with
        | 0 =>
          simp at hmat
          by_cases hb : bl < recognized_len rn
          · exact absurd ⟨hmat, hb⟩ hc
          · simpa using Nat.le_of_not_lt hb
        | Nat.succ k1 =>
          have hk1 : k1 < rest.length := by simpa using hk
          exact by simpa using h3 k1 hk1 (by simpa using hmat)
      · rcases hright with ⟨k, hk, h1, h2, h3, h4, h5⟩
        right
        refine ⟨k + 1, by simpa using Nat.succ_lt_succ hk, ?_, ?_, ?_, ?_, ?_⟩
        · rw [h1]; congr 1; omega
        · simpa using h2
        · simpa using h3
        · exact h4
        · intro m hm hmat
          match m with
          | 0 =>
            have hrn : recognized_matches capture_parts rn = true := by simpa using hmat
            have hble : recognized_len rn ≤ bl := by
              by_cases hb : bl < recognized_len rn
              · exact absurd ⟨hrn, hb⟩ hc
              · omega
            refine ⟨by simp; omega, ?_⟩
            intro _
            simp
            omega
          | Nat.succ m1 =>
            have hm1 : m1 < rest.length := by simpa using hm
            have := h5 m1 hm1 (by simpa using hmat)
            refine ⟨by simpa using this.1, ?_⟩
            intro hlt
            exact this.2 (by omega)

/-- Helper: when no recognized name matches, the loop never moves
`best_index` off its initial value. -/
theorem best_index_loop_none (capture_parts : List (List Nat)) :
    ∀ (names : List (List Nat)) (i0 : Nat) (bl : Nat),
      (∀ rn ∈ names, ¬ recognized_matches capture_parts rn) →
      (best_index_loop capture_parts names i0 none bl).1 = none := by
  intro names
  induction names with
  | nil => intro i0 bl _; rfl
  | cons rn rest ih =>
    intro i0 bl hno
    have hrn : ¬ recognized_matches capture_parts rn := hno rn (by simp)
    have hstep :
        best_index_loop capture_parts (rn :: rest) i0 none bl =
          best_index_loop capture_parts rest (i0 + 1) none bl := by
      simp [best_index_loop, hrn]
    rw [hstep]
    exact ih (i0 + 1) bl (fun x hx => hno x (by simp [hx]))

/-- C6: `configure` assigns to each capture name the index of the recognized
name with the greatest number of dot-separated parts all of which occur among
the capture name's parts; on equal part counts the earlier recognized name
wins; a capture with no matching recognized name gets `none`.  In particular
`configure` with `["function", "function.builtin"]` assigns index 1 to the
capture named `function.method.builtin`. -/
theorem configure_spec (recognized_names : List (List Nat)) (capture_name : List Nat) :
    ((∀ i, capture_highlight_index recognized_names capture_name = some ⟨i⟩ →
        ∃ hi : i < recognized_names.length,
          recognized_matches (split_dot capture_name)
              (recognized_names.get ⟨i, hi⟩) = true ∧
          ∀ j (hj : j < recognized_names.length),
            recognized_matches (split_dot capture_name)
                (recognized_names.get ⟨j, hj⟩) →
              recognized_len (recognized_names.get ⟨j, hj⟩) ≤
                  recognized_len (recognized_names.get ⟨i, hi⟩) ∧
                (recognized_len (recognized_names.get ⟨j, hj⟩) =
                    recognized_len (recognized_names.get ⟨i, hi⟩) → i ≤ j)) ∧
      ((∀ rn ∈ recognized_names, ¬ recognized_matches (split_dot capture_name) rn) →
        capture_highlight_index recognized_names capture_name = none)) ∧
    capture_highlight_index [FUNCTION_BYTES, FUNCTION_BUILTIN_BYTES]
        FUNCTION_METHOD_BUILTIN_BYTES =
      some ⟨1⟩ := by
  refine ⟨⟨?_, ?_⟩, by decide⟩
  · intro i hi
    rcases best_index_loop_spec (split_dot capture_name) recognized_names 0 none 0 with
      hleft | hright
    · exfalso
      rcases hleft with ⟨h1, _, _⟩
      rw [capture_highlight_index, h1] at hi
      simp at hi
    · rcases hright with ⟨k, hk, h1, h2, h3, _, h5⟩
      have hik : i = k := by
        rw [capture_highlight_index, h1] at hi
        simp at hi
        have : Highlight.mk k = Highlight.mk i := by
          simpa using congrArg Highlight.mk hi
        omega
      subst hik
      refine ⟨hk, h3, ?_⟩
      intro j hj hmat
      have := h5 j hj hmat
      constructor
      · rw [← h2]; exact this.1
      · intro heq
        by_contra hnle
        have hji : j < i := by omega
        have := this.2 hji
        rw [← h2] at heq
        omega
  · intro hno
    rw [capture_highlight_index, best_index_loop_none _ _ _ _ hno]
    rfl

/-- Witness for C6: the no-match branch instantiated at a concrete input
(capture name `abc`, recognized names `[zz]`). -/
theorem configure_spec_witness :
    (∀ rn ∈ [ZZ_BYTES], ¬ recognized_matches (split_dot ABC_BYTES) rn) ∧
    capture_highlight_index [ZZ_BYTES] ABC_BYTES = none :=
  ⟨by decide, (configure_spec [ZZ_BYTES] ABC_BYTES).1.2 (by decide)⟩

/-- Helper: splicing a carriage-return span introduces no carriage-return
byte. -/
theorem no_cr_add_carriage_return (r : HtmlRenderer) (offset : Nat)
    (attribute_callback : Highlight → List Nat)
    (hcb : ∀ h, (13 : Nat) ∉ attribute_callback h)
    (h0 : (13 : Nat) ∉ r.html) :
    (13 : Nat) ∉ (r.add_carriage_return offset attribute_callback).html := by
  unfold HtmlRenderer.add_carriage_return
  split
  · intro hmem
    simp only [List.append_assoc, List.mem_append] at hmem
    rcases hmem with h | h | h | h | h
    · exact h0 (List.take_subset _ _ h)
    · simp [SPAN_OPEN] at h
    · exact hcb _ h
    · simp [EMPTY_SPAN_TAIL] at h
    · exact h0 (List.drop_subset _ _ h)
  · exact h0

/-- Helper: opening a highlight span introduces no carriage-return byte. -/
theorem no_cr_start_highlight (r : HtmlRenderer) (h : Highlight)
    (attribute_callback : Highlight → List Nat)
    (hcb : ∀ x, (13 : Nat) ∉ attribute_callback x)
    (h0 : (13 : Nat) ∉ r.html) :
    (13 : Nat) ∉ (r.start_highlight h attribute_callback).html := by
  unfold HtmlRenderer.start_highlight
  intro hmem
  simp only [List.append_assoc, List.mem_append] at hmem
  rcases hmem with hm | hm | hm | hm
  · exact h0 hm
  · simp [SPAN_OPEN] at hm
  · exact hcb _ hm
  · simp [SPAN_GT] at hm

/-- Helper: closing a highlight span introduces no carriage-return byte. -/
theorem no_cr_end_highlight (r : HtmlRenderer) (h0 : (13 : Nat) ∉ r.html) :
    (13 : Nat) ∉ r.end_highlight.html := by
  unfold HtmlRenderer.end_highlight
  intro hmem
  simp only [List.mem_append] at hmem
  rcases hmem with hm | hm
  · exact h0 hm
  · simp [SPAN_CLOSE] at hm

/-- Helper: the close-all fold introduces no carriage-return byte. -/
theorem no_cr_foldl_end (highlights : List Highlight) :
    ∀ r : HtmlRenderer, (13 : Nat) ∉ r.html →
      (13 : Nat) ∉ (highlights.foldl (fun acc _ => acc.end_highlight) r).html := by
  induction highlights with
  | nil => intro r h0; simpa using h0
  | cons x xs ih => intro r h0; exact ih _ (no_cr_end_highlight r h0)

/-- Helper: the re-open-all fold introduces no carriage-return byte. -/
theorem no_cr_foldl_start (attribute_callback : Highlight → List Nat)
    (hcb : ∀ x, (13 : Nat) ∉ attribute_callback x) (highlights : List Highlight) :
    ∀ r : HtmlRenderer, (13 : Nat) ∉ r.html →
      (13 : Nat) ∉ (highlights.foldl
        (fun acc scope => acc.start_highlight scope attribute_callback) r).html := by
  induction highlights with
  | nil => intro r h0; simpa using h0
  | cons x xs ih => intro r h0; exact ih _ (no_cr_start_highlight r x _ hcb h0)

/-- Helper: escape sequences contain no carriage-return byte. -/
theorem no_cr_html_escape (c : Nat) (esc : List Nat) (h : html_escape c = some esc) :
    (13 : Nat) ∉ esc := by
  unfold html_escape at h
  repeat' split at h
  all_goals simp_all
  all_goals (subst h; decide)

/-- Helper: flushing a pending carriage return introduces no carriage-return
byte. -/
theorem no_cr_flush_carriage_return (attribute_callback : Highlight → List Nat)
    (hcb : ∀ x, (13 : Nat) ∉ attribute_callback x) (c : Nat) (r : HtmlRenderer)
    (h0 : (13 : Nat) ∉ r.html) :
    (13 : Nat) ∉ (r.flush_carriage_return attribute_callback c).html := by
  unfold HtmlRenderer.flush_carriage_return
  split
  · split
    · exact no_cr_add_carriage_return _ _ _ hcb h0
    · exact h0
  · exact h0

/-- Helper: one byte of `add_text` introduces no carriage-return byte (the
byte 13 itself is never written). -/
theorem no_cr_add_text_byte (attribute_callback : Highlight → List Nat)
    (hcb : ∀ x, (13 : Nat) ∉ attribute_callback x) (highlights : List Highlight)
    (c : Nat) (r : HtmlRenderer) (h0 : (13 : Nat) ∉ r.html) :
    (13 : Nat) ∉ (HtmlRenderer.add_text_byte attribute_callback highlights r c).html := by
  unfold HtmlRenderer.add_text_byte
  by_cases h13 : c = 13
  · simpa [h13] using h0
  · have hr1 := no_cr_flush_carriage_return attribute_callback hcb c r h0
    by_cases h10 : c = 10
    · simp only [if_neg h13, if_pos h10]
      exact no_cr_foldl_start attribute_callback hcb highlights _
        (by
          intro hmem
          simp only [List.mem_append] at hmem
          rcases hmem with hm | hm
          · exact no_cr_foldl_end highlights _ hr1 hm
          · simp at hm)
    · simp only [if_neg h13, if_neg h10]
      split
      case _ esc hesc =>
        intro hmem
        simp only [List.mem_append] at hmem
        rcases hmem with hm | hm
        · exact hr1 hm
        · exact no_cr_html_escape c esc hesc hm
      case _ hesc =>
        intro hmem
        simp only [List.mem_append] at hmem
        rcases hmem with hm | hm
        · exact hr1 hm
        · simp at hm; omega

/-- Helper: `add_text` introduces no carriage-return byte. -/
theorem no_cr_add_text (attribute_callback : Highlight → List Nat)
    (hcb : ∀ x, (13 : Nat) ∉ attribute_callback x) (highlights : List Highlight)
    (src : List Nat) :
    ∀ r : HtmlRenderer, (13 : Nat) ∉ r.html →
      (13 : Nat) ∉ (r.add_text src highlights attribute_callback).html := by
  induction src with
  | nil => intro r h0; simpa [HtmlRenderer.add_text] using h0
  | cons c cs ih =>
    intro r h0
    have := no_cr_add_text_byte attribute_callback hcb highlights c r h0
    simpa [HtmlRenderer.add_text] using ih _ this

/-- Helper: the render event loop introduces no carriage-return byte. -/
theorem no_cr_render_loop (attribute_callback : Highlight → List Nat)
    (hcb : ∀ x, (13 : Nat) ∉ attribute_callback x) (source : List Nat) :
    ∀ (events : List (Except Error HighlightEvent)) (highlights : List Highlight)
      (r : HtmlRenderer) (rr : HtmlRenderer) (hs : List Highlight),
      (13 : Nat) ∉ r.html →
      render_loop attribute_callback source events highlights r = .ok (rr, hs) →
      (13 : Nat) ∉ rr.html := by
  intro events
  induction events with
  | nil =>
    intro highlights r rr hs h0 heq
    simp [render_loop] at heq
    rw [← heq.1]
    exact h0
  | cons ev rest ih =>
    intro highlights r rr hs h0 heq
    match ev with
    | .ok (.HighlightStart s) =>
      exact ih _ _ _ _ (no_cr_start_highlight r s _ hcb h0) heq
    | .ok .HighlightEnd =>
      exact ih _ _ _ _ (no_cr_end_highlight r h0) heq
    | .ok (.Source s e) =>
      exact ih _ _ _ _ (no_cr_add_text attribute_callback hcb highlights _ r h0) heq
    | .error a => simp [render_loop] at heq

/-- C9: with a carriage-return highlight configured, the renderer writes no
carriage-return byte (for every event stream, source, and callback whose
attribute bytes are CR-free); a carriage return immediately followed by a
line feed produces no output at all (no empty span), and a lone carriage
return produces exactly one empty styled span at the carriage return's output
position, as witnessed by the two scenario inputs `a\x0D\x0Ab` and
`a\x0Db`. -/
theorem renderer_crlf_spec (events : List (Except Error HighlightEvent))
    (source : List Nat) (attribute_callback : Highlight → List Nat)
    (r0 rr : HtmlRenderer)
    (hcb : ∀ h, (13 : Nat) ∉ attribute_callback h)
    (h0 : (13 : Nat) ∉ r0.html)
    (hr : HtmlRenderer.render r0 events source attribute_callback = .ok rr) :
    (13 : Nat) ∉ rr.html ∧
    HtmlRenderer.render (HtmlRenderer.new.set_carriage_return_highlight (some ⟨0⟩))
        [.ok (.Source 0 4)] [97, 13, 10, 98] (fun _ => [107]) =
      .ok { html := [97, 10, 98, 10], line_offsets := [0, 2],
            carriage_return_highlight := some ⟨0⟩, last_carriage_return := none } ∧
    HtmlRenderer.render (HtmlRenderer.new.set_carriage_return_highlight (some ⟨0⟩))
        [.ok (.Source 0 3)] [97, 13, 98] (fun _ => [107]) =
      .ok { html := [97] ++ SPAN_OPEN ++ [107] ++ EMPTY_SPAN_TAIL ++ [98, 10],
            line_offsets := [0], carriage_return_highlight := some ⟨0⟩,
            last_carriage_return := none } := by
  refine ⟨?_, by rfl, by rfl⟩
  unfold HtmlRenderer.render at hr
  split at hr
  · exact absurd hr (by simp)
  case _ r1 hs heq =>
    have hr1 : (13 : Nat) ∉ r1.html :=
      no_cr_render_loop attribute_callback hcb source events [] r0 r1 hs h0 heq
    have hr2 : (13 : Nat) ∉ (match r1.last_carriage_return with
        | some offset =>
          HtmlRenderer.add_carriage_return { r1 with last_carriage_return := none }
            offset attribute_callback
        | none => r1).html := by
      split
      · exact no_cr_add_carriage_return _ _ _ hcb hr1
      · exact hr1
    simp only [] at hr
    split at hr <;> split at hr <;>
      (simp only [Except.ok.injEq] at hr; rw [← hr]) <;>
      simp_all

/-- Witness for C9 at the CRLF scenario input. -/
theorem renderer_crlf_spec_witness :
    (13 : Nat) ∉ ([97, 10, 98, 10] : List Nat) :=
  (renderer_crlf_spec [.ok (.Source 0 4)] [97, 13, 10, 98] (fun _ => [107])
    (HtmlRenderer.new.set_carriage_return_highlight (some ⟨0⟩))
    { html := [97, 10, 98, 10], line_offsets := [0, 2],
      carriage_return_highlight := some ⟨0⟩, last_carriage_return := none }
    (by intro h; simp) (by decide) (by rfl)).1

/-- Helper: the two possible outcomes of a `return self.emit_event(...)`. -/
theorem yieldEmit_cases (st : IterState) (off : Nat) (ev : Option HighlightEvent) :
    (st.byte_offset < off ∧
      yieldEmit st off ev =
        .yield (some (.ok (.Source st.byte_offset off)))
          (sortLayersState { st with byte_offset := off, next_event := ev })) ∨
    (¬ st.byte_offset < off ∧
      yieldEmit st off ev = .yield (ev.map .ok) (sortLayersState st)) := by
  by_cases h : st.byte_offset < off
  · exact Or.inl ⟨h, by simp [yieldEmit, emit_event, h]⟩
  · exact Or.inr ⟨h, by simp [yieldEmit, emit_event, h]⟩

/-- Helper: `return self.emit_event(off, Some(event))` never returns `None`. -/
theorem yieldEmit_some_not_none (st : IterState) (off : Nat) (ev : HighlightEvent)
    (it : Option (Except Error HighlightEvent)) (st2 : IterState)
    (h : yieldEmit st off (some ev) = .yield it st2) : it ≠ none := by
  rcases yieldEmit_cases st off (some ev) with ⟨_, heq⟩ | ⟨_, heq⟩ <;>
    (rw [heq] at h; cases h; simp)

/-- Helper: the injection branch never makes `next` return `None`. -/
theorem injectionStep_not_none (p : IterParams) (st : IterState)
    (layer : HighlightIterLayer) (rest : List HighlightIterLayer) (ne : CapElem)
    (it : Option (Except Error HighlightEvent)) (st2 : IterState)
    (h : injectionStep p st layer rest ne = .yield it st2) : it ≠ none := by
  unfold injectionStep at h
  dsimp only at h
  split at h
  · split at h
    · cases h; simp
    · cases h
    · cases h
  · cases h

/-- Helper: the highlight section never makes `next` return `None`. -/
theorem highlightStep_not_none (st : IterState) (layer : HighlightIterLayer)
    (rest : List HighlightIterLayer) (range : Node) (cur : CapElem)
    (caps : List CapElem) (scopes : List LocalScope) (refH : Option Highlight)
    (defSet : Bool) (it : Option (Except Error HighlightEvent)) (st2 : IterState)
    (h : highlightStep st layer rest range cur caps scopes refH defSet = .yield it st2) :
    it ≠ none := by
  by_cases hdd : dedupeHit st.last_highlight_range range layer.depth
  · rw [highlightStep, if_pos hdd] at h
    cases h
  · rw [highlightStep, if_neg hdd] at h
    rcases hco : collapseLoop layer.config (defSet || refH.isSome) cur caps with ⟨capF, capsF⟩
    rw [hco] at h
    dsimp only at h
    cases ho : refH.or (layer.config.highlight_indices.getD capF.cap.index none) with
    | some hh =>
      rw [ho] at h
      exact yieldEmit_some_not_none _ _ _ _ _ h
    | none =>
      rw [ho] at h
      cases h

/-- Helper: capture processing never makes `next` return `None`. -/
theorem processCapture_not_none (p : IterParams) (st : IterState)
    (layer : HighlightIterLayer) (rest : List HighlightIterLayer) (ne : CapElem)
    (it : Option (Except Error HighlightEvent)) (st2 : IterState)
    (h : processCapture p st layer rest ne = .yield it st2) : it ≠ none := by
  unfold processCapture at h
  dsimp only at h
  split at h
  · exact injectionStep_not_none _ _ _ _ _ _ _ h
  · split at h
    · cases h
    · exact highlightStep_not_none _ _ _ _ _ _ _ _ _ _ _ h

/-- Helper: when `next` returns `None` from a state whose front layer has a
pending boundary, the layers are exhausted, nothing is buffered, and the
whole source has been reported. -/
theorem mainStep_yield_none (p : IterParams) (st st2 : IterState)
    (hfo : frontOk st.layers) (hne : st.next_event = none)
    (h : mainStep p st = .yield none st2) :
    st2.layers = [] ∧ st2.next_event = none ∧ p.source.length ≤ st2.byte_offset := by
  unfold mainStep at h
  cases hl : st.layers with
  | nil =>
    rw [hl] at h
    dsimp only at h
    split at h
    · cases h
    case _ hge =>
      cases h
      exact ⟨hl, hne, by omega⟩
  | cons layer rest =>
    rw [hl] at h
    dsimp only at h
    unfold frontStep at h
    cases hcap : layer.captures.head? with
    | some ne =>
      rw [hcap] at h
      dsimp only at h
      cases hstk : layer.highlight_end_stack with
      | cons e es =>
        rw [hstk] at h
        dsimp only at h
        split at h
        · exact absurd rfl (yieldEmit_some_not_none _ _ _ _ _ h)
        · exact absurd rfl (processCapture_not_none _ _ _ _ _ _ _ h)
      | nil =>
        rw [hstk] at h
        dsimp only at h
        exact absurd rfl (processCapture_not_none _ _ _ _ _ _ _ h)
    | none =>
      rw [hcap] at h
      dsimp only at h
      cases hstk : layer.highlight_end_stack with
      | cons e es =>
        rw [hstk] at h
        dsimp only at h
        exact absurd rfl (yieldEmit_some_not_none _ _ _ _ _ h)
      | nil =>
        exfalso
        rw [hl] at hfo
        apply hfo
        unfold HighlightIterLayer.sort_key
        rw [hcap, hstk]
        rfl

/-- Helper: `stepOnce` analogue of `mainStep_yield_none`. -/
theorem stepOnce_yield_none (p : IterParams) (st st2 : IterState)
    (hfo : frontOk st.layers) (h : stepOnce p st = .yield none st2) :
    st2.layers = [] ∧ st2.next_event = none ∧ p.source.length ≤ st2.byte_offset := by
  unfold stepOnce at h
  cases hne : st.next_event with
  | some e => rw [hne] at h; cases h
  | none =>
    rw [hne] at h
    dsimp only at h
    cases hcf : p.cancellation_flag with
    | some flag =>
      rw [hcf] at h
      dsimp only at h
      split at h
      · split at h
        · cases h
        · refine mainStep_yield_none p _ _ ?_ ?_ h
          · exact hfo
          · rfl
      · refine mainStep_yield_none p _ _ ?_ ?_ h
        · exact hfo
        · rfl
    | none =>
      rw [hcf] at h
      dsimp only at h
      exact mainStep_yield_none p _ _ hfo hne h

/-- Helper: with the cancellation flag absent or zero, an exhausted state
keeps returning `None`. -/
theorem stepOnce_exhausted (p : IterParams) (st : IterState)
    (hflag : p.cancellation_flag.getD 0 = 0)
    (hC : st.layers = [] ∧ st.next_event = none ∧ p.source.length ≤ st.byte_offset) :
    ∃ st2, stepOnce p st = .yield none st2 ∧
      (st2.layers = [] ∧ st2.next_event = none ∧ p.source.length ≤ st2.byte_offset) := by
  obtain ⟨h1, h2, h3⟩ := hC
  unfold stepOnce
  rw [h2]
  dsimp only
  cases hcf : p.cancellation_flag with
  | none =>
    dsimp only
    refine ⟨st, ?_, h1, h2, h3⟩
    unfold mainStep
    rw [h1]
    dsimp only
    rw [if_neg (by omega)]
  | some flag =>
    have hz : flag = 0 := by rw [hcf] at hflag; simpa using hflag
    subst hz
    dsimp only
    by_cases hcnt : st.iter_count + 1 ≥ CANCELLATION_CHECK_INTERVAL
    · rw [if_pos hcnt, if_neg (by simp)]
      refine ⟨{ st with iter_count := 0 }, ?_, h1, h2, h3⟩
      unfold mainStep
      dsimp only
      rw [h1]
      dsimp only
      rw [if_neg (by omega), h2]
    · rw [if_neg hcnt]
      refine ⟨{ st with iter_count := st.iter_count + 1 }, ?_, h1, h2, h3⟩
      unfold mainStep
      dsimp only
      rw [h1]
      dsimp only
      rw [if_neg (by omega), h2]

/-- Helper: with the cancellation flag absent or zero, exhaustion is
permanent. -/
theorem exhausted_forever (p : IterParams)
    (hflag : p.cancellation_flag.getD 0 = 0) :
    ∀ (k : Nat) (st : IterState),
      (st.layers = [] ∧ st.next_event = none ∧ p.source.length ≤ st.byte_offset) →
      YieldsNoneForever p k st := by
  intro k
  induction k with
  | zero => intro st _; trivial
  | succ n ih =>
    intro st hC
    obtain ⟨st2, hstep, hC2⟩ := stepOnce_exhausted p st hflag hC
    exact ⟨st2, hstep, ih st2 hC2⟩

/-- Counterexample to C8 as stated: after the injection branch returns
`Err(InvalidLanguage)`, the very next call returns a further `Source` item,
not `None`. -/
theorem error_not_fused_counterexample :
    (runNext params_inject 20 (initState [desc_inject])).map Prod.fst =
      some (some (.error .InvalidLanguage)) ∧
    (runNext params_inject 20 (initState [desc_inject])).bind
        (fun r => (runNext params_inject 20 r.2).map Prod.fst) =
      some (some (.ok (.Source 0 1))) ∧
    (some (some (.ok (.Source 0 1))) : Option (Option (Except Error HighlightEvent))) ≠
      some none :=
  ⟨by rfl, by rfl, by decide⟩

/-- C8 amended: errors are returned as in-stream `Err` items, but the
iterator is not fused after an error.  What does hold: when the cancellation
flag is absent or zero and a call returns `None` from a state whose front
layer invariant holds, every subsequent call returns `None`. -/
theorem none_terminal_without_flag (p : IterParams) (st st2 : IterState)
    (hflag : p.cancellation_flag.getD 0 = 0) (hfo : frontOk st.layers)
    (h : stepOnce p st = .yield none st2) :
    ∀ k, YieldsNoneForever p k st2 := by
  intro k
  exact exhausted_forever p hflag k st2 (stepOnce_yield_none p st st2 hfo h)

/-- Witness for the amended C8 at a concrete exhausted state. -/
theorem none_terminal_without_flag_witness :
    params_simple.cancellation_flag.getD 0 = 0 ∧
    YieldsNoneForever params_simple 2
      { byte_offset := 3, layers := [], iter_count := 0, next_event := none,
        last_highlight_range := none } :=
  ⟨by decide,
    none_terminal_without_flag params_simple
      { byte_offset := 3, layers := [], iter_count := 0, next_event := none,
        last_highlight_range := none }
      { byte_offset := 3, layers := [], iter_count := 0, next_event := none,
        last_highlight_range := none }
      (by decide) (by simp [frontOk]) (by rfl) 2⟩

/-- Counterexample to C7 as stated: with the cancellation flag set to 1
before the first call, the first call returns an ordinary `Source` event, not
`Err(Cancelled)` (the flag is only polled every
`CANCELLATION_CHECK_INTERVAL` loop iterations). -/
theorem cancellation_first_next_counterexample :
    (runNext params_simple_cancel 20 (initState [desc_simple])).map Prod.fst =
      some (some (.ok (.Source 0 1))) ∧
    (some (some (.ok (.Source 0 1))) : Option (Option (Except Error HighlightEvent))) ≠
      some (some (.error .Cancelled)) :=
  ⟨by rfl, by decide⟩

/-- C7 amended: with a non-zero cancellation flag, the call whose loop
iteration reaches the cancellation checkpoint (every
`CANCELLATION_CHECK_INTERVAL` iterations) returns `Err(Cancelled)`; before
the checkpoint, ordinary items may still be returned. -/
theorem cancellation_checkpoint (p : IterParams) (st : IterState) (flag : Nat)
    (hne : st.next_event = none) (hflag : p.cancellation_flag = some flag)
    (hnz : flag ≠ 0) (hcount : st.iter_count + 1 ≥ CANCELLATION_CHECK_INTERVAL) :
    stepOnce p st = .yield (some (.error .Cancelled)) { st with iter_count := 0 } := by
  unfold stepOnce
  rw [hne, hflag]
  simp [hcount, hnz]

/-- Witness for the amended C7 at a concrete state whose iteration counter
has reached the checkpoint. -/
theorem cancellation_checkpoint_witness :
    (({ byte_offset := 0, layers := [], iter_count := 99, next_event := none,
        last_highlight_range := none } : IterState).iter_count + 1 ≥
      CANCELLATION_CHECK_INTERVAL) ∧
    stepOnce params_simple_cancel
        { byte_offset := 0, layers := [], iter_count := 99, next_event := none,
          last_highlight_range := none } =
      .yield (some (.error .Cancelled))
        { byte_offset := 0, layers := [], iter_count := 0, next_event := none,
          last_highlight_range := none } :=
  ⟨by decide,
    cancellation_checkpoint params_simple_cancel
      { byte_offset := 0, layers := [], iter_count := 99, next_event := none,
        last_highlight_range := none }
      1 rfl rfl (by decide) (by decide)⟩

/-- C4: when the most recently emitted highlight has range `(s, e)` at depth
`d`, and the front layer's next capture is a highlight capture on a node with
byte range exactly `(s, e)`, and the layer's depth is strictly below `d`,
then the capture is dropped without emitting any event: the step continues
with the capture consumed and only the scope stack pruned. -/
theorem cross_layer_dedupe (p : IterParams) (st : IterState)
    (layer : HighlightIterLayer) (rest : List HighlightIterLayer) (ne : CapElem)
    (caps : List CapElem) (s e d : Nat)
    (hlayers : st.layers = layer :: rest)
    (hcaps : layer.captures = ne :: caps)
    (hnev : st.next_event = none)
    (hflag : p.cancellation_flag = none)
    (hstack : layer.highlight_end_stack = [])
    (hinj : layer.config.locals_pattern_index ≤ ne.pattern_index)
    (hhl : layer.config.highlights_pattern_index ≤ ne.pattern_index)
    (hlast : st.last_highlight_range = some (s, e, d))
    (hs : ne.node.start_byte = s) (he : ne.node.end_byte = e)
    (hd : layer.depth < d) :
    stepOnce p st =
      .again (sortLayersState (setFront st
        { layer with
          captures := caps
          scope_stack := pruneScopes ne.node.start_byte layer.scope_stack } rest)) := by
  unfold stepOnce
  rw [hnev, hflag]
  dsimp only
  unfold mainStep
  rw [hlayers]
  dsimp only
  unfold frontStep
  rw [hcaps]
  simp only [List.head?_cons]
  rw [hstack]
  dsimp only
  unfold processCapture
  rw [if_neg (by omega)]
  dsimp only
  rw [hcaps]
  simp only [List.tail_cons]
  rw [localsLoop, if_neg (by omega)]
  dsimp only
  unfold highlightStep
  rw [if_pos]
  · rw [hstack]
  · unfold dedupeHit
    rw [hlast]
    simp [hs, he, hd]

/-- Witness for C4 at a concrete state: a deeper layer (depth 5) already
emitted the exact range 1..2, so the shallower layer's capture is dropped. -/
theorem cross_layer_dedupe_witness :
    st_dedupe.last_highlight_range = some (1, 2, 5) ∧
    stepOnce params_simple st_dedupe =
      .again (sortLayersState (setFront st_dedupe
        { layer_dedupe with
          captures := []
          scope_stack := pruneScopes dedupe_elem.node.start_byte
            layer_dedupe.scope_stack } [])) :=
  ⟨by rfl,
    cross_layer_dedupe params_simple st_dedupe layer_dedupe [] dedupe_elem [] 1 2 5
      rfl rfl rfl rfl rfl (by decide) (by decide) rfl (by decide) (by decide)
      (by decide)⟩

/-- Helper: `find?` on an append whose left part finds something. -/
theorem find?_append_some {α} (p : α → Bool) :
    ∀ (l1 l2 : List α) (a : α), l1.find? p = some a → (l1 ++ l2).find? p = some a := by
  intro l1
  induction l1 with
  | nil => intro l2 a h; simp [List.find?] at h
  | cons x rest ih =>
    intro l2 a h
    by_cases hx : p x
    · rw [List.find?_cons_of_pos _ hx] at h
      simpa [List.find?_cons_of_pos _ hx] using h
    · rw [List.find?_cons_of_neg _ hx] at h
      simpa [List.find?_cons_of_neg _ hx] using ih l2 a h

/-- Helper: `find?` on an append whose left part finds nothing. -/
theorem find?_append_none {α} (p : α → Bool) :
    ∀ (l1 l2 : List α), l1.find? p = none → (l1 ++ l2).find? p = l2.find? p := by
  intro l1
  induction l1 with
  | nil => intro l2 _; simp
  | cons x rest ih =>
    intro l2 h
    by_cases hx : p x
    · rw [List.find?_cons_of_pos _ hx] at h; cases h
    · rw [List.find?_cons_of_neg _ hx] at h
      simpa [List.find?_cons_of_neg _ hx] using ih l2 h

/-- Helper: the definition scan of a single scope is the first definition,
most recent first, with a byte-equal name whose initializer has ended. -/
theorem lookupDefs_eq_find (name : List Nat) (s : Nat) :
    ∀ defs : List LocalDef,
      lookupDefs name s defs =
        (defs.find? (fun d => decide (d.name = name) && decide (s ≥ d.value_range_end))).map
          (fun d => d.highlight) := by
  intro defs
  induction defs with
  | nil => rfl
  | cons d rest ih =>
    by_cases hc : d.name = name ∧ s ≥ d.value_range_end
    · rw [lookupDefs, if_pos hc, List.find?_cons_of_pos _ (by simp [hc.1, hc.2])]
      rfl
    · rw [lookupDefs, if_neg hc, List.find?_cons_of_neg, ih]
      simp only [Bool.and_eq_true, decide_eq_true_eq, not_and]
      intro h1 h2
      exact hc ⟨h1, h2⟩

/-- C3: part one states that the `local.reference` walk resolves to the first
definition, searching scopes innermost to outermost and definitions most
recent first, matching only byte-equal names whose `value_range` has ended at
or before the reference's start (so a reference inside its own initializer
does not resolve to itself), and searching no scope beyond the first
non-inheriting one.  Part two states that when the resolved definition
carries highlight `h`, the step emits `HighlightStart h` at the reference —
regardless of the highlight the matching pattern itself carries. -/
theorem local_reference_resolution :
    (∀ (name : List Nat) (s : Nat) (scopes : List LocalScope),
      resolveRef name s scopes =
        ((allDefs (scopesUpToBarrier scopes)).find?
            (fun d => decide (d.name = name) && decide (s ≥ d.value_range_end))).map
          (fun d => d.highlight)) ∧
    (∀ (p : IterParams) (st : IterState) (layer : HighlightIterLayer)
        (rest : List HighlightIterLayer) (refElem hlElem : CapElem)
        (caps : List CapElem) (nm : List Nat) (h : Highlight),
      st.layers = layer :: rest →
      layer.captures = refElem :: hlElem :: caps →
      st.next_event = none →
      p.cancellation_flag = none →
      layer.highlight_end_stack = [] →
      layer.config.locals_pattern_index ≤ refElem.pattern_index →
      refElem.pattern_index < layer.config.highlights_pattern_index →
      layer.config.highlights_pattern_index ≤ hlElem.pattern_index →
      hlElem.node = refElem.node →
      ¬ (some refElem.cap.index = layer.config.local_scope_capture_index) →
      ¬ (some refElem.cap.index = layer.config.local_def_capture_index) →
      some refElem.cap.index = layer.config.local_ref_capture_index →
      sliceUtf8 p.source refElem.node = some nm →
      resolveRef nm refElem.node.start_byte
          (pruneScopes refElem.node.start_byte layer.scope_stack) = some (some h) →
      st.last_highlight_range = none →
      caps = [] →
      st.byte_offset = refElem.node.start_byte →
      ∃ st2, stepOnce p st = .yield (some (.ok (.HighlightStart h))) st2) := by
  constructor
  · intro name s scopes
    induction scopes with
    | nil => rfl
    | cons sc rest ih =>
      rw [resolveRef, scopesUpToBarrier]
      cases hl : lookupDefs name s sc.local_defs with
      | some hh =>
        rw [lookupDefs_eq_find] at hl
        cases hf : sc.local_defs.find?
            (fun d => decide (d.name = name) && decide (s ≥ d.value_range_end)) with
        | none => rw [hf] at hl; cases hl
        | some d =>
          rw [hf] at hl
          simp only [Option.map_some'] at hl
          by_cases hin : sc.inherits
          · rw [if_pos hin]
            rw [allDefs, find?_append_some _ _ _ _ hf]
            simp [hl]
          · rw [if_neg hin]
            rw [allDefs, allDefs, List.append_nil, hf]
            simp [hl]
      | none =>
        have hf : sc.local_defs.find?
            (fun d => decide (d.name = name) && decide (s ≥ d.value_range_end)) = none := by
          rw [lookupDefs_eq_find] at hl
          cases hf2 : sc.local_defs.find?
              (fun d => decide (d.name = name) && decide (s ≥ d.value_range_end)) with
          | none => rfl
          | some d => rw [hf2] at hl; cases hl
        by_cases hin : sc.inherits
        · rw [if_pos hin]
          rw [allDefs, find?_append_none _ _ _ hf]
          simp [hin, ih]
        · rw [if_neg hin]
          rw [allDefs, allDefs, List.append_nil, hf]
          simp [hin]
  · intro p st layer rest refElem hlElem caps nm h hlayers hcaps hnev hflag hstack
      hlo hrefp hhlp hsame hnscope hndef href hname hres hlastn hcnil hbo
    apply Exists.intro
    unfold stepOnce
    rw [hnev, hflag]
    dsimp only
    unfold mainStep
    rw [hlayers]
    dsimp only
    unfold frontStep
    rw [hcaps]
    simp only [List.head?_cons]
    rw [hstack]
    dsimp only
    unfold processCapture
    rw [if_neg (by omega)]
    dsimp only
    rw [hcaps]
    simp only [List.tail_cons]
    rw [localsLoop, if_pos hrefp]
    rw [localsProcess, if_neg hnscope, if_neg hndef, if_pos ⟨href, rfl⟩]
    rw [hname]
    dsimp only
    rw [hres]
    simp only [Option.getD_some]
    rw [if_pos hsame]
    rw [localsLoop, if_neg (by omega)]
    dsimp only
    unfold highlightStep
    rw [hlastn]
    dsimp only [dedupeHit]
    rw [if_neg (by simp)]
    rw [hcnil]
    dsimp only [collapseLoop, collapseLoopAux]
    dsimp only [Option.or]
    unfold yieldEmit emit_event
    dsimp only [setFront]
    rw [if_neg (by omega)]
    rfl

/-- Witness for C3 at the concrete local-reference scenario: the definition
of `x` carries highlight 4, the matching highlight pattern carries highlight
9, and the emitted event is `HighlightStart 4`. -/
theorem local_reference_resolution_witness :
    resolveRef [120] 5 (pruneScopes ref_elem.node.start_byte layer_locals.scope_stack) =
      some (some ⟨4⟩) ∧
    ∃ st2, stepOnce params_locals st_locals =
      .yield (some (.ok (.HighlightStart ⟨4⟩))) st2 :=
  ⟨by decide,
    local_reference_resolution.2 params_locals st_locals layer_locals [] ref_elem hl_elem
      [] [120] ⟨4⟩ rfl rfl rfl rfl rfl (by decide) (by decide) (by decide) (by decide)
      (by decide) (by decide) (by decide) (by decide) (by decide) rfl rfl (by decide)⟩

/-- Helper: a layer with no sort key has neither captures nor pending ends. -/
theorem sort_key_none (l : HighlightIterLayer) (h : l.sort_key = none) :
    l.captures = [] ∧ l.highlight_end_stack = [] := by
  unfold HighlightIterLayer.sort_key at h
  cases hc : l.captures.head? with
  | some c =>
    rw [hc] at h
    cases hs : l.highlight_end_stack.head? with
    | some e => rw [hs] at h; dsimp only [Option.map] at h; split at h <;> cases h
    | none => rw [hs] at h; dsimp only [Option.map] at h; cases h
  | none =>
    rw [hc] at h
    cases hs : l.highlight_end_stack.head? with
    | some e => rw [hs] at h; dsimp only [Option.map] at h; cases h
    | none =>
      exact ⟨List.head?_eq_none_iff.mp hc, List.head?_eq_none_iff.mp hs⟩

/-- Helper: membership in the re-sorted layer list implies membership in the
original list. -/
theorem mem_sort_layers_list (a : HighlightIterLayer) :
    ∀ ls : List HighlightIterLayer, a ∈ sort_layers_list ls → a ∈ ls := by
  intro ls
  induction ls with
  | nil => intro h; simpa [sort_layers_list] using h
  | cons l rest ih =>
    intro h
    rw [sort_layers_list] at h
    cases hk : l.sort_key with
    | some k =>
      rw [hk] at h
      dsimp only at h
      rcases List.mem_append.mp h with h2 | h2
      · exact List.mem_cons_of_mem _ (List.mem_of_mem_take h2)
      · rcases List.mem_cons.mp h2 with h3 | h3
        · exact List.mem_cons.mpr (Or.inl h3)
        · exact List.mem_cons_of_mem _ (List.mem_of_mem_drop h3)
    | none =>
      rw [hk] at h
      exact List.mem_cons_of_mem _ (ih h)

/-- Helper: membership after the insertion scan. -/
theorem mem_insert_layer_rest (a lay : HighlightIterLayer) (k : Nat × Bool × Int) :
    ∀ ls : List HighlightIterLayer, a ∈ insert_layer_rest k lay ls → a = lay ∨ a ∈ ls := by
  intro ls
  induction ls with
  | nil => intro h; simpa [insert_layer_rest] using h
  | cons l rest ih =>
    intro h
    rw [insert_layer_rest] at h
    cases hk : l.sort_key with
    | some k2 =>
      rw [hk] at h
      dsimp only at h
      split at h
      · rcases List.mem_cons.mp h with h2 | h2
        · exact Or.inl h2
        · exact Or.inr h2
      · rcases List.mem_cons.mp h with h2 | h2
        · exact Or.inr (List.mem_cons.mpr (Or.inl h2))
        · rcases ih h2 with h3 | h3
          · exact Or.inl h3
          · exact Or.inr (List.mem_cons_of_mem _ h3)
    | none =>
      rw [hk] at h
      rcases ih h with h3 | h3
      · exact Or.inl h3
      · exact Or.inr (List.mem_cons_of_mem _ h3)

/-- Helper: membership after `insert_layer`. -/
theorem mem_insert_layer (a lay : HighlightIterLayer) (ls : List HighlightIterLayer)
    (h : a ∈ insert_layer lay ls) : a = lay ∨ a ∈ ls := by
  unfold insert_layer at h
  cases hk : lay.sort_key with
  | some k =>
    rw [hk] at h
    cases ls with
    | nil => exact Or.inl (by simpa using h)
    | cons first rest =>
      dsimp only at h
      rcases List.mem_cons.mp h with h2 | h2
      · exact Or.inr (List.mem_cons.mpr (Or.inl h2))
      · rcases mem_insert_layer_rest a lay k rest h2 with h3 | h3
        · exact Or.inl h3
        · exact Or.inr (List.mem_cons_of_mem _ h3)
  | none =>
    rw [hk] at h
    exact Or.inr h

/-- Helper: membership after folding layer insertions. -/
theorem mem_foldl_insert (a : HighlightIterLayer) :
    ∀ (descs : List LayerDesc) (ls0 : List HighlightIterLayer),
      a ∈ descs.foldl (fun ls d => insert_layer (mkLayer d) ls) ls0 →
      (∃ d ∈ descs, a = mkLayer d) ∨ a ∈ ls0 := by
  intro descs
  induction descs with
  | nil => intro ls0 h; exact Or.inr (by simpa using h)
  | cons d rest ih =>
    intro ls0 h
    rw [List.foldl_cons] at h
    rcases ih (insert_layer (mkLayer d) ls0) h with h2 | h2
    · rcases h2 with ⟨d2, hd2, he⟩
      exact Or.inl ⟨d2, List.mem_cons_of_mem _ hd2, he⟩
    · rcases mem_insert_layer a (mkLayer d) ls0 h2 with h3 | h3
      · exact Or.inl ⟨d, List.mem_cons_self _ _, h3⟩
      · exact Or.inr h3

/-- Helper: the stack sum of an appended layer list. -/
theorem stackSum_append (l1 l2 : List HighlightIterLayer) :
    stackSum (l1 ++ l2) = stackSum l1 + stackSum l2 := by
  simp [stackSum]

/-- Helper: the stack sum of a cons. -/
theorem stackSum_cons (l : HighlightIterLayer) (ls : List HighlightIterLayer) :
    stackSum (l :: ls) = l.highlight_end_stack.length + stackSum ls := by
  simp [stackSum]

/-- Helper: re-sorting the layer list preserves the total number of pending
ends (removed layers are dead, hence have empty stacks). -/
theorem stackSum_sort_layers_list :
    ∀ ls : List HighlightIterLayer, stackSum (sort_layers_list ls) = stackSum ls := by
  intro ls
  induction ls with
  | nil => rfl
  | cons l rest ih =>
    rw [sort_layers_list]
    cases hk : l.sort_key with
    | some k =>
      dsimp only
      have h1 : stackSum (rest.take (count_lt_key k rest) ++
          l :: rest.drop (count_lt_key k rest)) =
          stackSum (rest.take (count_lt_key k rest)) +
            (l.highlight_end_stack.length + stackSum (rest.drop (count_lt_key k rest))) := by
        rw [stackSum_append, stackSum_cons]
      have h2 : stackSum (rest.take (count_lt_key k rest)) +
          stackSum (rest.drop (count_lt_key k rest)) = stackSum rest := by
        rw [← stackSum_append, List.take_append_drop]
      have h3 : stackSum (l :: rest) = l.highlight_end_stack.length + stackSum rest :=
        stackSum_cons l rest
      omega
    | none =>
      have hdead := sort_key_none l hk
      rw [ih, stackSum_cons, hdead.2]
      simp

/-- Helper: inserting a layer with an empty end stack preserves the total
number of pending ends. -/
theorem stackSum_insert_layer_rest (lay : HighlightIterLayer) (k : Nat × Bool × Int)
    (hstk : lay.highlight_end_stack = []) :
    ∀ ls : List HighlightIterLayer, stackSum (insert_layer_rest k lay ls) = stackSum ls := by
  intro ls
  induction ls with
  | nil => simp [insert_layer_rest, stackSum, hstk]
  | cons l rest ih =>
    rw [insert_layer_rest]
    cases hk : l.sort_key with
    | some k2 =>
      dsimp only
      split
      · rw [stackSum_cons, hstk, stackSum_cons]
        simp
      · rw [stackSum_cons, ih, stackSum_cons]
    | none =>
      have hdead := sort_key_none l hk
      rw [ih, stackSum_cons, hdead.2]
      simp

/-- Helper: `insert_layer` with an empty-stack layer preserves the total
number of pending ends. -/
theorem stackSum_insert_layer (lay : HighlightIterLayer)
    (hstk : lay.highlight_end_stack = []) (ls : List HighlightIterLayer) :
    stackSum (insert_layer lay ls) = stackSum ls := by
  unfold insert_layer
  cases hk : lay.sort_key with
  | some k =>
    cases ls with
    | nil => simp [stackSum, hstk]
    | cons first rest =>
      dsimp only
      rw [stackSum_cons, stackSum_insert_layer_rest lay k hstk rest, stackSum_cons]
  | none => rfl

/-- Helper: folding insertions of freshly constructed layers preserves the
total number of pending ends. -/
theorem stackSum_foldl_insert :
    ∀ (descs : List LayerDesc) (ls0 : List HighlightIterLayer),
      stackSum (descs.foldl (fun ls d => insert_layer (mkLayer d) ls) ls0) = stackSum ls0 := by
  intro descs
  induction descs with
  | nil => intro ls0; rfl
  | cons d rest ih =>
    intro ls0
    rw [List.foldl_cons, ih, stackSum_insert_layer]
    rfl

/-- Helper: a positive walk count certifies the next layer has a key. -/
theorem count_lt_key_pos (k : Nat × Bool × Int) (l : HighlightIterLayer)
    (rest : List HighlightIterLayer) (h : 0 < count_lt_key k (l :: rest)) :
    l.sort_key ≠ none := by
  intro hk
  rw [count_lt_key, hk] at h
  dsimp only at h
  omega

/-- Helper: the re-sorted layer list has a live front layer. -/
theorem frontOk_sort_layers_list :
    ∀ ls : List HighlightIterLayer, frontOk (sort_layers_list ls) := by
  intro ls
  induction ls with
  | nil => simp [sort_layers_list, frontOk]
  | cons l rest ih =>
    rw [sort_layers_list]
    cases hk : l.sort_key with
    | some k =>
      dsimp only
      cases hcnt : count_lt_key k rest with
      | zero =>
        simp only [List.take_zero, List.nil_append, List.drop_zero]
        simpa [frontOk] using Option.isSome_iff_ne_none.mp (by rw [hk]; rfl)
      | succ n =>
        cases rest with
        | nil => simp [count_lt_key] at hcnt
        | cons r rs =>
          have hr : r.sort_key ≠ none :=
            count_lt_key_pos k r rs (by omega)
          simp only [List.take_succ_cons]
          simpa [frontOk] using hr
    | none => exact ih

/-- Helper: the state after any `sort_layers` call has a live front layer. -/
theorem frontOk_sortLayersState (st : IterState) : frontOk (sortLayersState st).layers :=
  frontOk_sort_layers_list st.layers

/-- Helper: the balance of an item list is its start count minus its end
count. -/
theorem itemsBalance_eq (items : List (Except Error HighlightEvent)) :
    itemsBalance items = (startsCount items : Int) - (endsCount items : Int) := by
  induction items with
  | nil => rfl
  | cons it rest ih =>
    rw [itemsBalance, List.map_cons, List.sum_cons]
    rw [itemsBalance] at ih
    match it with
    | .ok (.HighlightStart h) =>
      simp [startsCount, endsCount, List.countP_cons, itemBalance] at ih ⊢
      omega
    | .ok .HighlightEnd =>
      simp [startsCount, endsCount, List.countP_cons, itemBalance] at ih ⊢
      omega
    | .ok (.Source s e) =>
      simp [startsCount, endsCount, List.countP_cons, itemBalance] at ih ⊢
      omega
    | .error er =>
      simp [startsCount, endsCount, List.countP_cons, itemBalance] at ih ⊢
      omega

/-- Helper: a valid scope stack is non-empty. -/
theorem scopesOk_ne_nil (stack : List LocalScope) (h : scopesOkStack stack) :
    stack ≠ [] := by
  cases stack with
  | nil => exact absurd h (by simp [scopesOkStack])
  | cons s rest => simp

/-- Helper: pushing a scope keeps the stack valid. -/
theorem scopesOk_cons (x : LocalScope) (stack : List LocalScope)
    (h : scopesOkStack stack) : scopesOkStack (x :: stack) := by
  cases stack with
  | nil => exact absurd h (by simp [scopesOkStack])
  | cons s rest => exact h

/-- Helper: replacing the top scope by one with the same bounds and
inheritance keeps the stack valid. -/
theorem scopesOk_head_mod (s s2 : LocalScope) (rest : List LocalScope)
    (h : scopesOkStack (s :: rest)) (h1 : s2.inherits = s.inherits)
    (h2 : s2.range_start = s.range_start) (h3 : s2.range_end = s.range_end) :
    scopesOkStack (s2 :: rest) := by
  cases rest with
  | nil =>
    simp [scopesOkStack] at h ⊢
    exact ⟨by rw [h1, h.1], by rw [h2, h.2.1], by rw [h3, h.2.2]⟩
  | cons r rs => exact h

/-- C10 helper: pruning never empties a valid scope stack (the bottom global
scope's range end is `usize::MAX`, at or beyond every capture start), and
keeps it valid. -/
theorem scopesOk_prune (s : Nat) (hs : s ≤ USIZE_MAX) :
    ∀ stack : List LocalScope, scopesOkStack stack →
      pruneScopes s stack ≠ [] ∧ scopesOkStack (pruneScopes s stack) := by
  intro stack
  induction stack with
  | nil => intro h; exact absurd h (by simp [scopesOkStack])
  | cons sc rest ih =>
    intro h
    rw [pruneScopes]
    by_cases hgt : s > sc.range_end
    · rw [if_pos hgt]
      cases rest with
      | nil =>
        exfalso
        simp [scopesOkStack] at h
        obtain ⟨-, -, h3⟩ := h
        omega
      | cons r rs => exact ih h
    · rw [if_neg hgt]
      exact ⟨by simp, h⟩

/-- Helper: writing a definition highlight keeps the stack valid. -/
theorem scopesOk_writeDef (h : Option Highlight) :
    ∀ scopes : List LocalScope, scopesOkStack scopes →
      scopesOkStack (writeDefHighlight h scopes) := by
  intro scopes hok
  cases scopes with
  | nil => simpa [writeDefHighlight] using hok
  | cons sc rest =>
    rw [writeDefHighlight]
    cases hd : sc.local_defs with
    | nil => exact hok
    | cons d ds =>
      dsimp only
      exact scopesOk_head_mod sc _ rest hok rfl rfl rfl

/-- Helper: one locals-branch body keeps the scope stack valid. -/
theorem scopesOk_localsProcess (cfg : HighlightConfiguration) (source : List Nat)
    (range : Node) (cur : CapElem) (scopes : List LocalScope) (refH : Option Highlight)
    (defSet : Bool) (hok : scopesOkStack scopes) :
    scopesOkStack (localsProcess cfg source range cur scopes refH defSet).1 := by
  unfold localsProcess
  split
  · exact scopesOk_cons _ _ hok
  · split
    · dsimp only
      cases scopes with
      | nil => exact absurd hok (by simp [scopesOkStack])
      | cons scope others =>
        dsimp only
        cases sliceUtf8 source range with
        | some name => exact scopesOk_head_mod scope _ others hok rfl rfl rfl
        | none => exact hok
    · split
      · exact hok
      · exact hok

/-- Helper: the locals loop keeps the scope stack valid. -/
theorem scopesOk_localsLoop (cfg : HighlightConfiguration) (source : List Nat)
    (range : Node) :
    ∀ (caps : List CapElem) (cur : CapElem) (scopes : List LocalScope)
      (refH : Option Highlight) (defSet : Bool), scopesOkStack scopes →
      scopesOkStack (localsLoop cfg source range cur caps scopes refH defSet).scopes := by
  intro caps
  induction caps with
  | nil =>
    intro cur scopes refH defSet hok
    rw [localsLoop]
    split
    · rcases hlp : localsProcess cfg source range cur scopes refH defSet with ⟨s2, r2, d2⟩
      dsimp only
      have := scopesOk_localsProcess cfg source range cur scopes refH defSet hok
      rw [hlp] at this
      exact this
    · exact hok
  | cons nxt caps2 ih =>
    intro cur scopes refH defSet hok
    rw [localsLoop]
    split
    · rcases hlp : localsProcess cfg source range cur scopes refH defSet with ⟨s2, r2, d2⟩
      have hs2 : scopesOkStack s2 := by
        have := scopesOk_localsProcess cfg source range cur scopes refH defSet hok
        rw [hlp] at this
        exact this
      dsimp only
      split
      · exact ih nxt s2 r2 d2 hs2
      · exact hs2
    · exact hok

/-- Helper: the locals loop only discards capture-stream elements from the
front: its remaining stream is a sub-sequence. -/
theorem localsLoop_caps_sublist (cfg : HighlightConfiguration) (source : List Nat)
    (range : Node) :
    ∀ (caps : List CapElem) (cur : CapElem) (scopes : List LocalScope)
      (refH : Option Highlight) (defSet : Bool),
      ((localsLoop cfg source range cur caps scopes refH defSet).caps).Sublist caps := by
  intro caps
  induction caps with
  | nil =>
    intro cur scopes refH defSet
    rw [localsLoop]
    split
    · rcases hlp : localsProcess cfg source range cur scopes refH defSet with ⟨s2, r2, d2⟩
      simp [LocalsRes.caps]
    · simp [LocalsRes.caps]
  | cons nxt caps2 ih =>
    intro cur scopes refH defSet
    rw [localsLoop]
    split
    · rcases hlp : localsProcess cfg source range cur scopes refH defSet with ⟨s2, r2, d2⟩
      dsimp only
      split
      · exact (ih nxt s2 r2 d2).trans (List.sublist_cons_self _ _)
      · simp [LocalsRes.caps]
    · simp [LocalsRes.caps]

/-- Helper: the collapse loop keeps a sub-sequence of the capture stream. -/
theorem collapseLoopAux_sublist (cfg : HighlightConfiguration) (is_local : Bool) :
    ∀ (fuel : Nat) (cur : CapElem) (caps : List CapElem),
      ((collapseLoopAux cfg is_local fuel cur caps).2).Sublist caps := by
  intro fuel
  induction fuel with
  | zero =>
    intro cur caps
    cases caps with
    | nil => simp [collapseLoopAux]
    | cons nxt rest => simp [collapseLoopAux]
  | succ n ih =>
    intro cur caps
    cases caps with
    | nil => simp [collapseLoopAux]
    | cons nxt rest =>
      rw [collapseLoopAux]
      split
      · split
        · exact (ih cur rest).trans (List.sublist_cons_self _ _)
        · exact ((ih nxt _).trans (List.filter_sublist _)).trans
            (List.sublist_cons_self _ _)
      · simp

/-- Helper: `collapseLoop` keeps a sub-sequence of the capture stream. -/
theorem collapseLoop_sublist (cfg : HighlightConfiguration) (is_local : Bool)
    (cur : CapElem) (caps : List CapElem) :
    ((collapseLoop cfg is_local cur caps).2).Sublist caps :=
  collapseLoopAux_sublist cfg is_local caps.length cur caps

/-- Helper: every layer derives from itself. -/
theorem LayerStep_refl (l : HighlightIterLayer) : LayerStep l l :=
  ⟨List.Sublist.refl _, rfl, rfl, rfl, fun e he => Or.inl he, fun _ hok => hok⟩

/-- Helper: the layers of the state produced by `return self.emit_event(...)`
are the re-sorted layers of the state passed in. -/
theorem yieldEmit_state_layers (st : IterState) (off : Nat) (ev : Option HighlightEvent) :
    ((yieldEmit st off ev).state).layers = sort_layers_list st.layers := by
  rcases yieldEmit_cases st off ev with ⟨_, heq⟩ | ⟨_, heq⟩ <;> rw [heq] <;> rfl

/-- Helper: the head of a list is a member. -/
theorem mem_of_head?_eq (a : CapElem) (l : List CapElem) (h : l.head? = some a) :
    a ∈ l := by
  cases l with
  | nil => cases h
  | cons x xs =>
    simp at h
    rw [h]
    exact List.mem_cons_self _ _

/-- Helper: every layer after the injection branch descends from an old layer
or was built by the oracle. -/
theorem injectionStep_layers (p : IterParams) (st : IterState)
    (layer : HighlightIterLayer) (rest : List HighlightIterLayer) (ne : CapElem) :
    ∀ a ∈ ((injectionStep p st layer rest ne).state).layers,
      (∃ l ∈ layer :: rest, LayerStep l a) ∨ OracleMade p a := by
  intro a ha
  have hstep : LayerStep layer
      { layer with
        captures := (layer.captures.tail).filter (fun c => c.match_id ≠ ne.match_id) } := by
    refine ⟨?_, rfl, rfl, rfl, fun e he => Or.inl he, fun _ hok => hok⟩
    exact (List.filter_sublist _).trans (List.tail_sublist _)
  unfold injectionStep at ha
  dsimp only at ha
  split at ha
  case _ lang cnode hinfo1 hinfo2 =>
    split at ha
    case _ er horacle =>
      dsimp only [StepRes.state, setFront] at ha
      rcases List.mem_cons.mp ha with h2 | h2
      · exact Or.inl ⟨layer, List.mem_cons_self _ _, by rw [h2]; exact hstep⟩
      · exact Or.inl ⟨a, List.mem_cons_of_mem _ h2, LayerStep_refl a⟩
    case _ descs horacle =>
      dsimp only [StepRes.state, sortLayersState, setFront] at ha
      have := mem_sort_layers_list a _ ha
      rcases mem_foldl_insert a descs _ this with h2 | h2
      · rcases h2 with ⟨d, hd, he⟩
        exact Or.inr ⟨_, descs, d, horacle, hd, he⟩
      · rcases List.mem_cons.mp h2 with h3 | h3
        · exact Or.inl ⟨layer, List.mem_cons_self _ _, by rw [h3]; exact hstep⟩
        · exact Or.inl ⟨a, List.mem_cons_of_mem _ h3, LayerStep_refl a⟩
    case _ horacle =>
      dsimp only [StepRes.state, sortLayersState, setFront] at ha
      have := mem_sort_layers_list a _ ha
      rcases List.mem_cons.mp this with h2 | h2
      · exact Or.inl ⟨layer, List.mem_cons_self _ _, by rw [h2]; exact hstep⟩
      · exact Or.inl ⟨a, List.mem_cons_of_mem _ h2, LayerStep_refl a⟩
  case _ hinfo =>
    dsimp only [StepRes.state, sortLayersState, setFront] at ha
    have := mem_sort_layers_list a _ ha
    rcases List.mem_cons.mp this with h2 | h2
    · exact Or.inl ⟨layer, List.mem_cons_self _ _, by rw [h2]; exact hstep⟩
    · exact Or.inl ⟨a, List.mem_cons_of_mem _ h2, LayerStep_refl a⟩

/-- Helper: every layer after the highlight section descends from the front
layer or one of the remaining layers. -/
theorem highlightStep_layers (st : IterState) (layer : HighlightIterLayer)
    (rest : List HighlightIterLayer) (range : Node) (cur : CapElem)
    (caps : List CapElem) (scopes : List LocalScope) (refH : Option Highlight)
    (defSet : Bool)
    (hcaps : caps.Sublist layer.captures)
    (hrange : ∃ c ∈ layer.captures, range = c.node)
    (hsc : (∀ c ∈ layer.captures, c.node.start_byte ≤ USIZE_MAX) →
      scopesOkStack layer.scope_stack → scopesOkStack scopes) :
    ∀ a ∈ ((highlightStep st layer rest range cur caps scopes refH defSet).state).layers,
      ∃ l ∈ layer :: rest, LayerStep l a := by
  intro a ha
  unfold highlightStep at ha
  split at ha
  · dsimp only [StepRes.state, sortLayersState, setFront] at ha
    have := mem_sort_layers_list a _ ha
    rcases List.mem_cons.mp this with h2 | h2
    · refine ⟨layer, List.mem_cons_self _ _, ?_⟩
      rw [h2]
      exact ⟨hcaps, rfl, rfl, rfl, fun e he => Or.inl he, hsc⟩
    · exact ⟨a, List.mem_cons_of_mem _ h2, LayerStep_refl a⟩
  · rcases hco : collapseLoop layer.config (defSet || refH.isSome) cur caps with ⟨capF, capsF⟩
    rw [hco] at ha
    dsimp only at ha
    have hcapsF : capsF.Sublist layer.captures := by
      have h2 := collapseLoop_sublist layer.config (defSet || refH.isSome) cur caps
      rw [hco] at h2
      exact List.Sublist.trans h2 hcaps
    have hsc2 : (∀ c ∈ layer.captures, c.node.start_byte ≤ USIZE_MAX) →
        scopesOkStack layer.scope_stack →
        scopesOkStack (if defSet = true then
          writeDefHighlight (layer.config.highlight_indices.getD capF.cap.index none) scopes
        else scopes) := by
      intro hb hok
      split
      · exact scopesOk_writeDef _ _ (hsc hb hok)
      · exact hsc hb hok
    cases ho : refH.or (layer.config.highlight_indices.getD capF.cap.index none) with
    | some hh =>
      rw [ho] at ha
      rw [yieldEmit_state_layers] at ha
      dsimp only [setFront] at ha
      have := mem_sort_layers_list a _ ha
      rcases List.mem_cons.mp this with h2 | h2
      · refine ⟨layer, List.mem_cons_self _ _, ?_⟩
        rw [h2]
        refine ⟨hcapsF, rfl, rfl, rfl, ?_, hsc2⟩
        intro e he
        rcases List.mem_cons.mp he with h3 | h3
        · rcases hrange with ⟨c, hc, hcr⟩
          exact Or.inr ⟨c, hc, by rw [h3, hcr]⟩
        · exact Or.inl h3
      · exact ⟨a, List.mem_cons_of_mem _ h2, LayerStep_refl a⟩
    | none =>
      rw [ho] at ha
      dsimp only [StepRes.state, sortLayersState, setFront] at ha
      have := mem_sort_layers_list a _ ha
      rcases List.mem_cons.mp this with h2 | h2
      · refine ⟨layer, List.mem_cons_self _ _, ?_⟩
        rw [h2]
        exact ⟨hcapsF, rfl, rfl, rfl, fun e he => Or.inl he, hsc2⟩
      · exact ⟨a, List.mem_cons_of_mem _ h2, LayerStep_refl a⟩

/-- Helper: every layer after one `mainStep` descends from an old layer or
was built by the oracle. -/
theorem mainStep_layers (p : IterParams) (st : IterState) :
    ∀ a ∈ ((mainStep p st).state).layers,
      (∃ l ∈ st.layers, LayerStep l a) ∨ OracleMade p a := by
  intro a ha
  unfold mainStep at ha
  cases hl : st.layers with
  | nil =>
    rw [hl] at ha
    dsimp only at ha
    split at ha
    · dsimp only [StepRes.state] at ha
      simp at ha
    · dsimp only [StepRes.state] at ha
      rw [hl] at ha
      simp at ha
  | cons layer rest =>
    rw [hl] at ha
    dsimp only at ha
    unfold frontStep at ha
    cases hcap : layer.captures.head? with
    | some ne =>
      rw [hcap] at ha
      dsimp only at ha
      have hne_mem : ne ∈ layer.captures := mem_of_head?_eq ne _ hcap
      cases hstk : layer.highlight_end_stack with
      | cons e es =>
        rw [hstk] at ha
        dsimp only at ha
        split at ha
        · rw [yieldEmit_state_layers] at ha
          dsimp only [setFront] at ha
          have := mem_sort_layers_list a _ ha
          rcases List.mem_cons.mp this with h2 | h2
          · refine Or.inl ⟨layer, List.mem_cons_self _ _, ?_⟩
            rw [h2]
            refine ⟨List.Sublist.refl _, rfl, rfl, rfl, ?_, fun _ hok => hok⟩
            intro e2 he2
            exact Or.inl (by rw [hstk]; exact List.mem_cons_of_mem _ he2)
          · exact Or.inl ⟨a, List.mem_cons_of_mem _ h2, LayerStep_refl a⟩
        · -- processCapture
          exact (by
            clear hstk
            unfold processCapture at ha
            split at ha
            · exact injectionStep_layers p st layer rest ne a ha
            · dsimp only at ha
              split at ha
              case _ caps2 scopes2 hloc =>
                dsimp only [StepRes.state, sortLayersState, setFront] at ha
                have := mem_sort_layers_list a _ ha
                rcases List.mem_cons.mp this with h2 | h2
                · refine Or.inl ⟨layer, List.mem_cons_self _ _, ?_⟩
                  rw [h2]
                  refine ⟨?_, rfl, rfl, rfl, fun e2 he2 => Or.inl he2, ?_⟩
                  · have hs := localsLoop_caps_sublist layer.config p.source ne.node
                      layer.captures.tail ne
                      (pruneScopes ne.node.start_byte layer.scope_stack) none false
                    rw [hloc] at hs
                    exact List.Sublist.trans hs (List.tail_sublist _)
                  · intro hb hok
                    have hp := scopesOk_prune ne.node.start_byte (hb ne hne_mem) _ hok
                    have hll := scopesOk_localsLoop layer.config p.source ne.node
                      layer.captures.tail ne
                      (pruneScopes ne.node.start_byte layer.scope_stack) none false hp.2
                    rw [hloc] at hll
                    exact hll
                · exact Or.inl ⟨a, List.mem_cons_of_mem _ h2, LayerStep_refl a⟩
              case _ cur caps2 scopes2 refH defSet hloc =>
                have hres := highlightStep_layers st layer rest ne.node cur caps2 scopes2
                  refH defSet
                  (by
                    have hs := localsLoop_caps_sublist layer.config p.source ne.node
                      layer.captures.tail ne
                      (pruneScopes ne.node.start_byte layer.scope_stack) none false
                    rw [hloc] at hs
                    exact List.Sublist.trans hs (List.tail_sublist _))
                  ⟨ne, hne_mem, rfl⟩
                  (by
                    intro hb hok
                    have hp := scopesOk_prune ne.node.start_byte (hb ne hne_mem) _ hok
                    have hll := scopesOk_localsLoop layer.config p.source ne.node
                      layer.captures.tail ne
                      (pruneScopes ne.node.start_byte layer.scope_stack) none false hp.2
                    rw [hloc] at hll
                    exact hll)
                  a ha
                rcases hres with ⟨l, hlmem, hstep⟩
                exact Or.inl ⟨l, hlmem, hstep⟩)
      | nil =>
        rw [hstk] at ha
        dsimp only at ha
        unfold processCapture at ha
        split at ha
        · exact injectionStep_layers p st layer rest ne a ha
        · dsimp only at ha
          split at ha
          case _ caps2 scopes2 hloc =>
            dsimp only [StepRes.state, sortLayersState, setFront] at ha
            have := mem_sort_layers_list a _ ha
            rcases List.mem_cons.mp this with h2 | h2
            · refine Or.inl ⟨layer, List.mem_cons_self _ _, ?_⟩
              rw [h2]
              refine ⟨?_, rfl, rfl, rfl, fun e2 he2 => Or.inl he2, ?_⟩
              · have hs := localsLoop_caps_sublist layer.config p.source ne.node
                  layer.captures.tail ne
                  (pruneScopes ne.node.start_byte layer.scope_stack) none false
                rw [hloc] at hs
                exact List.Sublist.trans hs (List.tail_sublist _)
              · intro hb hok
                have hp := scopesOk_prune ne.node.start_byte (hb ne hne_mem) _ hok
                have hll := scopesOk_localsLoop layer.config p.source ne.node
                  layer.captures.tail ne
                  (pruneScopes ne.node.start_byte layer.scope_stack) none false hp.2
                rw [hloc] at hll
                exact hll
            · exact Or.inl ⟨a, List.mem_cons_of_mem _ h2, LayerStep_refl a⟩
          case _ cur caps2 scopes2 refH defSet hloc =>
            have hres := highlightStep_layers st layer rest ne.node cur caps2 scopes2
              refH defSet
              (by
                have hs := localsLoop_caps_sublist layer.config p.source ne.node
                  layer.captures.tail ne
                  (pruneScopes ne.node.start_byte layer.scope_stack) none false
                rw [hloc] at hs
                exact List.Sublist.trans hs (List.tail_sublist _))
              ⟨ne, hne_mem, rfl⟩
              (by
                intro hb hok
                have hp := scopesOk_prune ne.node.start_byte (hb ne hne_mem) _ hok
                have hll := scopesOk_localsLoop layer.config p.source ne.node
                  layer.captures.tail ne
                  (pruneScopes ne.node.start_byte layer.scope_stack) none false hp.2
                rw [hloc] at hll
                exact hll)
              a ha
            rcases hres with ⟨l, hlmem, hstep⟩
            exact Or.inl ⟨l, hlmem, hstep⟩
    | none =>
      rw [hcap] at ha
      dsimp only at ha
      cases hstk : layer.highlight_end_stack with
      | cons e es =>
        rw [hstk] at ha
        dsimp only at ha
        rw [yieldEmit_state_layers] at ha
        dsimp only [setFront] at ha
        have := mem_sort_layers_list a _ ha
        rcases List.mem_cons.mp this with h2 | h2
        · refine Or.inl ⟨layer, List.mem_cons_self _ _, ?_⟩
          rw [h2]
          refine ⟨List.Sublist.refl _, rfl, rfl, rfl, ?_, fun _ hok => hok⟩
          intro e2 he2
          exact Or.inl (by rw [hstk]; exact List.mem_cons_of_mem _ he2)
        · exact Or.inl ⟨a, List.mem_cons_of_mem _ h2, LayerStep_refl a⟩
      | nil =>
        rw [hstk] at ha
        dsimp only at ha
        rw [yieldEmit_state_layers] at ha
        have := mem_sort_layers_list a _ ha
        rw [hl] at this
        exact Or.inl ⟨a, this, LayerStep_refl a⟩

/-- Helper: every layer after one `'main` loop iteration descends from an old
layer or was built by the oracle. -/
theorem stepOnce_layers (p : IterParams) (st : IterState) :
    ∀ a ∈ ((stepOnce p st).state).layers,
      (∃ l ∈ st.layers, LayerStep l a) ∨ OracleMade p a := by
  intro a ha
  unfold stepOnce at ha
  cases hne : st.next_event with
  | some e =>
    rw [hne] at ha
    dsimp only [StepRes.state] at ha
    exact Or.inl ⟨a, ha, LayerStep_refl a⟩
  | none =>
    rw [hne] at ha
    dsimp only at ha
    cases hcf : p.cancellation_flag with
    | some flag =>
      rw [hcf] at ha
      dsimp only at ha
      split at ha
      · split at ha
        · dsimp only [StepRes.state] at ha
          exact Or.inl ⟨a, ha, LayerStep_refl a⟩
        · exact mainStep_layers p { st with iter_count := 0, next_event := none } a ha
      · exact mainStep_layers p
          { st with iter_count := st.iter_count + 1, next_event := none } a ha
    | none =>
      rw [hcf] at ha
      dsimp only at ha
      exact mainStep_layers p st a ha

/-- C10: every layer's scope stack always carries the implicit global scope
(inherits nothing, range `0..usize::MAX`) at its bottom: layer creation seeds
it; the pruning loop never pops it (its range end is at or beyond every
capture start), so the stack never empties and every unchecked access to its
top succeeds; and every step of the iterator preserves the invariant for
every layer, including freshly built injection layers. -/
theorem scope_stack_invariant :
    (∀ d : LayerDesc, scopesOkStack (mkLayer d).scope_stack) ∧
    (∀ (s : Nat) (stack : List LocalScope), s ≤ USIZE_MAX → scopesOkStack stack →
      pruneScopes s stack ≠ [] ∧ scopesOkStack (pruneScopes s stack)) ∧
    (∀ (p : IterParams) (st : IterState),
      (∀ args descs, p.injection_oracle args = some (.ok descs) →
        ∀ d ∈ descs, ∀ c ∈ d.captures, c.node.start_byte ≤ USIZE_MAX) →
      (∀ l ∈ st.layers, scopesOkStack l.scope_stack ∧
        ∀ c ∈ l.captures, c.node.start_byte ≤ USIZE_MAX) →
      ∀ a ∈ ((stepOnce p st).state).layers, scopesOkStack a.scope_stack ∧
        ∀ c ∈ a.captures, c.node.start_byte ≤ USIZE_MAX) := by
  refine ⟨?_, ?_, ?_⟩
  · intro d
    exact ⟨rfl, rfl, rfl⟩
  · intro s stack hs hok
    exact scopesOk_prune s hs stack hok
  · intro p st horacle hinv a ha
    rcases stepOnce_layers p st a ha with ⟨l, hl, hstep⟩ | hmade
    · obtain ⟨hsub, -, -, -, -, htrans⟩ := hstep
      have hb := (hinv l hl).2
      refine ⟨htrans hb (hinv l hl).1, ?_⟩
      intro c hc
      exact hb c (hsub.subset hc)
    · rcases hmade with ⟨args, descs, d, heq, hd, hae⟩
      subst hae
      refine ⟨⟨rfl, rfl, rfl⟩, ?_⟩
      intro c hc
      exact horacle args descs heq d hd c (by simpa [mkLayer] using hc)

/-- Witness for C10: pruning at capture start 5 keeps the singleton global
stack intact. -/
theorem scope_stack_invariant_witness :
    (5 ≤ USIZE_MAX ∧ scopesOkStack [GLOBAL_SCOPE]) ∧
    (pruneScopes 5 [GLOBAL_SCOPE] ≠ [] ∧ scopesOkStack (pruneScopes 5 [GLOBAL_SCOPE])) :=
  ⟨⟨by decide, ⟨rfl, rfl, rfl⟩⟩,
    scope_stack_invariant.2.1 5 [GLOBAL_SCOPE] (by decide) ⟨rfl, rfl, rfl⟩⟩

/-- Helper: one `'main` loop iteration keeps every layer's capture nodes and
pending ends within the source. -/
theorem stepOnce_inBounds_layers (p : IterParams) (st : IterState)
    (horacle : OracleInBounds p.source.length p)
    (hst : ∀ l ∈ st.layers, LayerInBounds p.source.length l) :
    ∀ a ∈ ((stepOnce p st).state).layers, LayerInBounds p.source.length a := by
  intro a ha
  rcases stepOnce_layers p st a ha with ⟨l, hl, hstep⟩ | hmade
  · obtain ⟨hsub, _, _, _, hends, _⟩ := hstep
    obtain ⟨hc, he⟩ := hst l hl
    refine ⟨fun c hcm => hc c (hsub.subset hcm), ?_⟩
    intro e hem
    rcases hends e hem with h1 | ⟨c, hcm, hce⟩
    · exact he e h1
    · rw [hce]
      exact (hc c hcm).2
  · rcases hmade with ⟨args, descs, d, heq, hd, hae⟩
    subst hae
    refine ⟨fun c hcm => horacle args descs heq d hd c hcm, ?_⟩
    intro e hem
    simp [mkLayer] at hem

/-- Helper: a `continue 'main` that re-sorts the layers establishes all the
per-iteration accounting facts whenever the pending-end total is unchanged. -/
theorem AgainFacts_sorted (p : IterParams) (st : IterState)
    (ls2 : List HighlightIterLayer)
    (hne : st.next_event = none)
    (hbyte : st.byte_offset ≤ p.source.length)
    (hsum : stackSum ls2 = stackSum st.layers) :
    AgainFacts p st (sortLayersState { st with layers := ls2 }) := by
  unfold AgainFacts
  refine ⟨?_, ?_, ?_, ?_, ?_, ?_⟩
  · intro hh hc
    dsimp only [sortLayersState] at hc
    rw [hne] at hc
    cases hc
  · intro s e hc
    dsimp only [sortLayersState] at hc
    rw [hne] at hc
    cases hc
  · exact hbyte
  · exact frontOk_sortLayersState _
  · unfold phi
    dsimp only [sortLayersState]
    rw [stackSum_sort_layers_list, hsum]
  · rfl

/-- Helper: the item and state facts of a `return self.emit_event(offset,
Some(event))` statement, relative to the state the loop iteration entered
with. -/
theorem yieldEmit_facts (p : IterParams) (st stB : IterState) (off : Nat)
    (ev : HighlightEvent)
    (hbyteB : stB.byte_offset = st.byte_offset)
    (hneB : stB.next_event = none)
    (hoff : off ≤ p.source.length)
    (hbyte : st.byte_offset ≤ p.source.length)
    (hsum : (stackSum stB.layers : Int) + bufferedDelta (some ev) = phi st)
    (hnsrc : ∀ s e, ev ≠ .Source s e)
    (hstart : ∀ h, ev = .HighlightStart h → 1 ≤ stackSum stB.layers) :
    StepFacts p st (yieldEmit stB off (some ev)) := by
  rcases yieldEmit_cases stB off (some ev) with ⟨hlt, heq⟩ | ⟨hge, heq⟩ <;> rw [heq]
  · dsimp only [StepFacts]
    unfold YieldFacts
    refine ⟨?_, ?_, ?_, ?_, ?_, ?_, ?_⟩
    · intro hh hc
      dsimp only [sortLayersState] at hc
      injection hc with h3
      dsimp only [sortLayersState]
      rw [stackSum_sort_layers_list]
      exact hstart hh h3
    · intro s e hc
      dsimp only [sortLayersState] at hc
      injection hc with h3
      exact absurd h3 (hnsrc s e)
    · exact hoff
    · have hphiS : phi (sortLayersState { stB with byte_offset := off, next_event := some ev }) =
          (stackSum stB.layers : Int) + bufferedDelta (some ev) := by
        unfold phi
        dsimp only [sortLayersState]
        rw [stackSum_sort_layers_list]
      rw [hphiS, hsum]
      dsimp only [itemBalance]
      omega
    · intro _
      exact Or.inl (frontOk_sortLayersState _)
    · intro s e hX
      injection hX with h3
      injection h3 with h4 h5
      subst h4
      subst h5
      exact ⟨hbyteB, rfl, hlt⟩
    · intro hno
      exact absurd rfl (hno _ _)
  · dsimp only [Option.map, StepFacts]
    unfold YieldFacts
    refine ⟨?_, ?_, ?_, ?_, ?_, ?_, ?_⟩
    · intro hh hc
      dsimp only [sortLayersState] at hc
      rw [hneB] at hc
      cases hc
    · intro s e hc
      dsimp only [sortLayersState] at hc
      rw [hneB] at hc
      cases hc
    · dsimp only [sortLayersState]
      rw [hbyteB]
      exact hbyte
    · have hphiS : phi (sortLayersState stB) = (stackSum stB.layers : Int) := by
        unfold phi
        dsimp only [sortLayersState]
        rw [stackSum_sort_layers_list, hneB]
        dsimp only [bufferedDelta]
        omega
      rw [hphiS, ← hsum]
      cases ev with
      | Source s e => exact absurd rfl (hnsrc s e)
      | HighlightStart hh =>
        dsimp only [bufferedDelta, itemBalance]
        omega
      | HighlightEnd =>
        dsimp only [bufferedDelta, itemBalance]
        omega
    · intro _
      exact Or.inl (frontOk_sortLayersState _)
    · intro s e hX
      injection hX with h3
      exact absurd h3 (hnsrc s e)
    · intro _
      dsimp only [sortLayersState]
      exact hbyteB

/-- Helper: the accounting facts of the injection branch of `next`: every
outcome keeps the pending-end total, the byte offset and the empty event
buffer; only the error return skips the re-sort. -/
theorem injectionStep_accounting (p : IterParams) (st : IterState)
    (layer : HighlightIterLayer) (rest : List HighlightIterLayer) (ne : CapElem)
    (hne : st.next_event = none)
    (hl : st.layers = layer :: rest)
    (hbyte : st.byte_offset ≤ p.source.length) :
    StepFacts p st (injectionStep p st layer rest ne) := by
  unfold injectionStep
  dsimp only
  generalize injection_for_match layer.config (some p.language_name) ne p.source = info
  obtain ⟨i1, i2, i3⟩ := info
  dsimp only
  cases i1 with
  | none =>
    cases i2 <;>
      (dsimp only [StepFacts, setFront]
       refine AgainFacts_sorted p st _ hne hbyte ?_
       rw [hl]
       rfl)
  | some lang =>
    cases i2 with
    | none =>
      dsimp only [StepFacts, setFront]
      refine AgainFacts_sorted p st _ hne hbyte ?_
      rw [hl]
      rfl
    | some cnode =>
      dsimp only
      cases hOr : p.injection_oracle ⟨lang, cnode, i3, layer.ranges, layer.depth + 1⟩ with
      | none =>
        dsimp only [StepFacts, setFront]
        refine AgainFacts_sorted p st _ hne hbyte ?_
        rw [hl]
        rfl
      | some r =>
        cases r with
        | ok descs =>
          dsimp only [StepFacts, setFront]
          refine AgainFacts_sorted p st _ hne hbyte ?_
          rw [stackSum_foldl_insert, hl]
          rfl
        | error er =>
          dsimp only [StepFacts]
          unfold YieldFacts
          refine ⟨?_, ?_, ?_, ?_, ?_, ?_, ?_⟩
          · intro hh hc
            dsimp only [setFront] at hc
            rw [hne] at hc
            cases hc
          · intro s e hc
            dsimp only [setFront] at hc
            rw [hne] at hc
            cases hc
          · exact hbyte
          · unfold phi
            dsimp only [setFront]
            rw [hne, hl, stackSum_cons, stackSum_cons]
            dsimp only [bufferedDelta, itemBalance]
            omega
          · intro _
            exact Or.inr ⟨er, rfl⟩
          · intro s e hX
            simp at hX
          · intro _
            rfl

/-- Helper: the accounting facts of the highlight section of `next`: the
dedupe and no-highlight exits keep the pending-end total; the emitting exit
pushes one pending end and buffers the matching start. -/
theorem highlightStep_accounting (p : IterParams) (st : IterState)
    (layer : HighlightIterLayer) (rest : List HighlightIterLayer) (range : Node)
    (cur : CapElem) (caps : List CapElem) (scopes : List LocalScope)
    (refH : Option Highlight) (defSet : Bool)
    (hne : st.next_event = none)
    (hl : st.layers = layer :: rest)
    (hbyte : st.byte_offset ≤ p.source.length)
    (hoff : range.start_byte ≤ p.source.length) :
    StepFacts p st (highlightStep st layer rest range cur caps scopes refH defSet) := by
  unfold highlightStep
  by_cases hdd : dedupeHit st.last_highlight_range range layer.depth
  · rw [if_pos hdd]
    dsimp only [StepFacts, setFront]
    refine AgainFacts_sorted p st _ hne hbyte ?_
    rw [hl]
    rfl
  · rw [if_neg hdd]
    rcases hco : collapseLoop layer.config (defSet || refH.isSome) cur caps with ⟨capF, capsF⟩
    dsimp only
    cases ho : refH.or (layer.config.highlight_indices.getD capF.cap.index none) with
    | none =>
      dsimp only [StepFacts, setFront]
      refine AgainFacts_sorted p st _ hne hbyte ?_
      rw [hl]
      rfl
    | some hh =>
      dsimp only
      refine yieldEmit_facts p st _ range.start_byte (.HighlightStart hh) rfl hne hoff hbyte
        ?_ ?_ ?_
      · dsimp only [setFront]
        rw [stackSum_cons]
        unfold phi
        rw [hne, hl, stackSum_cons]
        dsimp only [bufferedDelta, List.length_cons]
        omega
      · intro s e hEv
        simp at hEv
      · intro h2 hEv
        dsimp only [setFront]
        rw [stackSum_cons]
        dsimp only [List.length_cons]
        omega

/-- Helper: the accounting facts of processing one consumed capture:
injection branch, locals loop or highlight section. -/
theorem processCapture_accounting (p : IterParams) (st : IterState)
    (layer : HighlightIterLayer) (rest : List HighlightIterLayer) (ne : CapElem)
    (hne : st.next_event = none)
    (hl : st.layers = layer :: rest)
    (hbyte : st.byte_offset ≤ p.source.length)
    (hoff : ne.node.start_byte ≤ p.source.length) :
    StepFacts p st (processCapture p st layer rest ne) := by
  unfold processCapture
  by_cases hinj : ne.pattern_index < layer.config.locals_pattern_index
  · rw [if_pos hinj]
    exact injectionStep_accounting p st layer rest ne hne hl hbyte
  · rw [if_neg hinj]
    dsimp only
    cases hloc : localsLoop layer.config p.source ne.node ne layer.captures.tail
        (pruneScopes ne.node.start_byte layer.scope_stack) none false with
    | exitMain caps2 scopes2 =>
      dsimp only [StepFacts, setFront]
      refine AgainFacts_sorted p st _ hne hbyte ?_
      rw [hl]
      rfl
    | toHighlight cur caps2 scopes2 refH defSet =>
      dsimp only
      exact highlightStep_accounting p st layer rest ne.node cur caps2 scopes2 refH defSet
        hne hl hbyte hoff

/-- Helper: the accounting facts of lines 843-884 of `next`: tail emission
over exhausted layers, pending-end emission, capture processing, or the
drained-document `None` return. -/
theorem mainStep_accounting (p : IterParams) (st : IterState)
    (hne : st.next_event = none)
    (hbounds : ∀ l ∈ st.layers, LayerInBounds p.source.length l)
    (hbyte : st.byte_offset ≤ p.source.length) :
    StepFacts p st (mainStep p st) := by
  unfold mainStep
  cases hl : st.layers with
  | nil =>
    dsimp only
    by_cases hlt : st.byte_offset < p.source.length
    · rw [if_pos hlt]
      dsimp only [StepFacts]
      unfold YieldFacts
      refine ⟨?_, ?_, ?_, ?_, ?_, ?_, ?_⟩
      · intro hh hc
        dsimp only at hc
        rw [hne] at hc
        cases hc
      · intro s e hc
        dsimp only at hc
        rw [hne] at hc
        cases hc
      · exact le_refl _
      · unfold phi
        dsimp only
        rw [hne, hl]
        dsimp only [bufferedDelta, itemBalance]
        omega
      · intro _
        exact Or.inl (by simp [frontOk])
      · intro s e hX
        injection hX with h3
        injection h3 with h4 h5
        subst h4
        subst h5
        exact ⟨rfl, rfl, hlt⟩
      · intro hno
        exact absurd rfl (hno _ _)
    · rw [if_neg hlt]
      dsimp only [StepFacts]
      unfold NoneFacts
      refine ⟨rfl, by omega, ?_⟩
      intro _
      unfold phi
      rw [hne, hl]
      dsimp only [bufferedDelta, stackSum]
      simp
  | cons layer rest =>
    dsimp only
    have hlayer : LayerInBounds p.source.length layer :=
      hbounds layer (by rw [hl]; exact List.mem_cons_self _ _)
    unfold frontStep
    cases hcap : layer.captures.head? with
    | some ne =>
      dsimp only
      have hne_mem : ne ∈ layer.captures := mem_of_head?_eq ne _ hcap
      have hoff : ne.node.start_byte ≤ p.source.length := (hlayer.1 ne hne_mem).1
      cases hstk : layer.highlight_end_stack with
      | cons e es =>
        dsimp only
        by_cases hle : e ≤ ne.node.start_byte
        · rw [if_pos hle]
          have hoffE : e ≤ p.source.length :=
            hlayer.2 e (by rw [hstk]; exact List.mem_cons_self _ _)
          refine yieldEmit_facts p st _ e .HighlightEnd rfl hne hoffE hbyte ?_ ?_ ?_
          · dsimp only [setFront]
            rw [stackSum_cons]
            unfold phi
            rw [hne, hl, stackSum_cons, hstk]
            dsimp only [bufferedDelta, List.length_cons]
            omega
          · intro s e2 hEv
            simp at hEv
          · intro h2 hEv
            simp at hEv
        · rw [if_neg hle]
          exact processCapture_accounting p st layer rest ne hne hl hbyte hoff
      | nil =>
        dsimp only
        exact processCapture_accounting p st layer rest ne hne hl hbyte hoff
    | none =>
      dsimp only
      cases hstk : layer.highlight_end_stack with
      | cons e es =>
        dsimp only
        have hoffE : e ≤ p.source.length :=
          hlayer.2 e (by rw [hstk]; exact List.mem_cons_self _ _)
        refine yieldEmit_facts p st _ e .HighlightEnd rfl hne hoffE hbyte ?_ ?_ ?_
        · dsimp only [setFront]
          rw [stackSum_cons]
          unfold phi
          rw [hne, hl, stackSum_cons, hstk]
          dsimp only [bufferedDelta, List.length_cons]
          omega
        · intro s e2 hEv
          simp at hEv
        · intro h2 hEv
          simp at hEv
      | nil =>
        dsimp only
        rcases yieldEmit_cases st p.source.length none with ⟨hlt, heq⟩ | ⟨hge, heq⟩ <;> rw [heq]
        · dsimp only [StepFacts]
          unfold YieldFacts
          refine ⟨?_, ?_, ?_, ?_, ?_, ?_, ?_⟩
          · intro hh hc
            dsimp only [sortLayersState] at hc
            cases hc
          · intro s e2 hc
            dsimp only [sortLayersState] at hc
            cases hc
          · dsimp only [sortLayersState]
            exact le_refl _
          · unfold phi
            dsimp only [sortLayersState]
            rw [stackSum_sort_layers_list, hne]
            dsimp only [bufferedDelta, itemBalance]
            omega
          · intro _
            exact Or.inl (frontOk_sortLayersState _)
          · intro s e2 hX
            injection hX with h3
            injection h3 with h4 h5
            subst h4
            subst h5
            exact ⟨rfl, rfl, hlt⟩
          · intro hno
            exact absurd rfl (hno _ _)
        · dsimp only [Option.map, StepFacts]
          unfold NoneFacts
          refine ⟨rfl, by omega, ?_⟩
          intro hfo
          rw [hl] at hfo
          dsimp only [frontOk] at hfo
          have hkey : layer.sort_key = none := by
            unfold HighlightIterLayer.sort_key
            rw [hcap, hstk]
            rfl
          exact absurd hkey hfo

/-- Helper: the step facts only depend on the layers, byte offset and event
buffer of the reference state. -/
theorem StepFacts_congr (p : IterParams) (st st' : IterState) (res : StepRes)
    (hlay : st'.layers = st.layers) (hby : st'.byte_offset = st.byte_offset)
    (hnext : st'.next_event = st.next_event)
    (h : StepFacts p st' res) : StepFacts p st res := by
  have hphi : phi st' = phi st := by
    unfold phi
    rw [hlay, hnext]
  cases res with
  | again st2 =>
    dsimp only [StepFacts] at h ⊢
    unfold AgainFacts at h ⊢
    obtain ⟨h1, h2, h3, h4, h5, h6⟩ := h
    exact ⟨h1, h2, h3, h4, by rw [← hphi]; exact h5, by rw [← hby]; exact h6⟩
  | yield item st2 =>
    cases item with
    | none =>
      dsimp only [StepFacts] at h ⊢
      unfold NoneFacts at h ⊢
      obtain ⟨h1, h2, h3⟩ := h
      refine ⟨by rw [← hby]; exact h1, by rw [← hby]; exact h2, ?_⟩
      intro hfo
      rw [← hphi]
      exact h3 (by rw [hlay]; exact hfo)
    | some it =>
      dsimp only [StepFacts] at h ⊢
      unfold YieldFacts at h ⊢
      obtain ⟨h1, h2, h3, h4, h5, h6, h7⟩ := h
      refine ⟨h1, h2, h3, by rw [← hphi]; exact h4, ?_, ?_, ?_⟩
      · intro hfo
        exact h5 (by rw [hlay]; exact hfo)
      · intro s e hX
        obtain ⟨g1, g2, g3⟩ := h6 s e hX
        exact ⟨by rw [← hby]; exact g1, g2, g3⟩
      · intro hno
        rw [← hby]
        exact h7 hno

/-- Helper: the accounting facts of one full `'main` loop iteration: buffered
event release, the periodic cancellation return, or a main step. -/
theorem stepOnce_accounting (p : IterParams) (st : IterState)
    (hB : BufferOk st) (hNB : NoBufferedSource st)
    (hSB : StateInBounds p.source.length st) :
    StepFacts p st (stepOnce p st) := by
  obtain ⟨hbounds, hbyte⟩ := hSB
  unfold stepOnce
  cases hne : st.next_event with
  | some e =>
    dsimp only [StepFacts]
    unfold YieldFacts
    refine ⟨?_, ?_, hbyte, ?_, ?_, ?_, ?_⟩
    · intro hh hc
      dsimp only at hc
      cases hc
    · intro s e2 hc
      dsimp only at hc
      cases hc
    · cases e with
      | Source s2 e2 => exact absurd hne (hNB s2 e2)
      | HighlightStart hh =>
        have h1 := hB hh hne
        unfold phi
        dsimp only
        rw [hne]
        dsimp only [bufferedDelta, itemBalance]
        omega
      | HighlightEnd =>
        unfold phi
        dsimp only
        rw [hne]
        dsimp only [bufferedDelta, itemBalance]
        omega
    · intro hfo
      exact Or.inl hfo
    · intro s2 e2 hX
      injection hX with h3
      rw [h3] at hne
      exact absurd hne (hNB s2 e2)
    · intro _
      rfl
  | none =>
    dsimp only
    cases hcf : p.cancellation_flag with
    | none =>
      dsimp only
      exact mainStep_accounting p st hne hbounds hbyte
    | some flag =>
      dsimp only
      by_cases hic : st.iter_count + 1 ≥ CANCELLATION_CHECK_INTERVAL
      · rw [if_pos hic]
        by_cases hfl : flag ≠ 0
        · rw [if_pos hfl]
          dsimp only [StepFacts]
          unfold YieldFacts
          refine ⟨?_, ?_, hbyte, ?_, ?_, ?_, ?_⟩
          · intro hh hc
            dsimp only at hc
            cases hc
          · intro s e hc
            dsimp only at hc
            cases hc
          · unfold phi
            dsimp only
            rw [hne]
            dsimp only [bufferedDelta, itemBalance]
            omega
          · intro _
            exact Or.inr ⟨.Cancelled, rfl⟩
          · intro s e hX
            simp at hX
          · intro _
            rfl
        · rw [if_neg hfl]
          exact StepFacts_congr p st { st with iter_count := 0, next_event := none } _
            rfl rfl hne.symm
            (mainStep_accounting p { st with iter_count := 0, next_event := none }
              rfl hbounds hbyte)
      · rw [if_neg hic]
        exact StepFacts_congr p st
          { st with iter_count := st.iter_count + 1, next_event := none } _
          rfl rfl hne.symm
          (mainStep_accounting p { st with iter_count := st.iter_count + 1, next_event := none }
            rfl hbounds hbyte)

/-- Helper: with buffered-start accounting, the balance potential is never
negative. -/
theorem phi_nonneg (st : IterState) (h : BufferOk st) : 0 ≤ phi st := by
  unfold phi
  cases hne : st.next_event with
  | none =>
    dsimp only [bufferedDelta]
    omega
  | some e =>
    cases e with
    | Source s e2 =>
      dsimp only [bufferedDelta]
      omega
    | HighlightStart hh =>
      have h1 := h hh hne
      dsimp only [bufferedDelta]
      omega
    | HighlightEnd =>
      dsimp only [bufferedDelta]
      omega

/-- Helper: the balance of a cons. -/
theorem itemsBalance_cons (it : Except Error HighlightEvent)
    (items : List (Except Error HighlightEvent)) :
    itemsBalance (it :: items) = itemBalance it + itemsBalance items := by
  simp [itemsBalance]

/-- Helper: an error-free list has an error-free tail. -/
theorem errorFree_tail (it : Except Error HighlightEvent)
    (items : List (Except Error HighlightEvent)) (h : errorFree (it :: items)) :
    errorFree items :=
  fun e he => h e (List.mem_cons_of_mem _ he)

/-- Helper: the head of an error-free list is no error. -/
theorem errorFree_head (it : Except Error HighlightEvent)
    (items : List (Except Error HighlightEvent)) (h : errorFree (it :: items)) :
    ∀ er, it ≠ .error er :=
  fun er heq => h er (by rw [← heq]; exact List.mem_cons_self _ _)

/-- Helper: freshly made layers carry no pending ends. -/
theorem stackSum_map_mkLayer (descs : List LayerDesc) :
    stackSum (descs.map mkLayer) = 0 := by
  induction descs with
  | nil => rfl
  | cons d rest ih =>
    rw [List.map_cons, stackSum_cons, ih]
    rfl

/-- Helper: over any complete drain, the balance potential bounds every
prefix balance from below by its negation, the final balance returns the
potential to zero when no error interrupts the front-layer invariant, and
the emitted `Source` spans chain the byte offset gaplessly to the end of the
source. -/
theorem drainN_accounting (p : IterParams) (horacle : OracleInBounds p.source.length p) :
    ∀ (fuel : Nat) (st : IterState) (items : List (Except Error HighlightEvent)),
      drainN p fuel st = some items →
      BufferOk st → NoBufferedSource st → StateInBounds p.source.length st →
      (∀ n, 0 ≤ phi st + itemsBalance (items.take n)) ∧
      (frontOk st.layers → errorFree items → phi st + itemsBalance items = 0) ∧
      chainFrom st.byte_offset (sourceSpans items) p.source.length := by
  intro fuel
  induction fuel with
  | zero =>
    intro st items h
    cases h
  | succ fuel ih =>
    intro st items h hB hNB hSB
    rw [drainN] at h
    have hfacts := stepOnce_accounting p st hB hNB hSB
    have hbnd := stepOnce_inBounds_layers p st horacle hSB.1
    cases hstep : stepOnce p st with
    | again st2 =>
      rw [hstep] at h hfacts hbnd
      dsimp only [StepFacts] at hfacts
      dsimp only [StepRes.state] at hbnd
      dsimp only at h
      unfold AgainFacts at hfacts
      obtain ⟨hB2, hNB2, hby2, hfo2, hphi2, hbo2⟩ := hfacts
      obtain ⟨h1, h2, h3⟩ := ih st2 items h hB2 hNB2 ⟨hbnd, hby2⟩
      rw [hphi2] at h1 h2
      rw [hbo2] at h3
      exact ⟨h1, fun _ => h2 hfo2, h3⟩
    | yield item st2 =>
      rw [hstep] at h hfacts hbnd
      cases item with
      | none =>
        dsimp only [StepFacts] at hfacts
        dsimp only at h
        injection h with h2
        subst h2
        unfold NoneFacts at hfacts
        obtain ⟨hbo, hlen, hphi0⟩ := hfacts
        refine ⟨?_, ?_, ?_⟩
        · intro n
          simpa [itemsBalance] using phi_nonneg st hB
        · intro hfo _
          have := hphi0 hfo
          simpa [itemsBalance] using this
        · have hbeq : st.byte_offset = p.source.length := le_antisymm hSB.2 hlen
          simpa [sourceSpans, chainFrom] using hbeq
      | some it =>
        dsimp only [StepFacts] at hfacts
        dsimp only [StepRes.state] at hbnd
        dsimp only at h
        cases hd : drainN p fuel st2 with
        | none =>
          rw [hd] at h
          simp at h
        | some items2 =>
          rw [hd, Option.map_some'] at h
          injection h with h2
          subst h2
          unfold YieldFacts at hfacts
          obtain ⟨hB2, hNB2, hby2, hphiD, hfoC, hsrc, hnsrc⟩ := hfacts
          obtain ⟨h1, h2, h3⟩ := ih st2 items2 hd hB2 hNB2 ⟨hbnd, hby2⟩
          refine ⟨?_, ?_, ?_⟩
          · intro n
            cases n with
            | zero => simpa [itemsBalance] using phi_nonneg st hB
            | succ n =>
              have h4 := h1 n
              rw [hphiD] at h4
              rw [List.take_succ_cons, itemsBalance_cons]
              omega
          · intro hfo hef
            have hit := errorFree_head it items2 hef
            have hfo2 : frontOk st2.layers := by
              rcases hfoC hfo with h4 | ⟨er, h4⟩
              · exact h4
              · exact absurd h4 (hit er)
            have h4 := h2 hfo2 (errorFree_tail it items2 hef)
            rw [hphiD] at h4
            rw [itemsBalance_cons]
            omega
          · by_cases hS : ∃ s e, it = .ok (.Source s e)
            · rcases hS with ⟨s, e, rfl⟩
              obtain ⟨hs1, hs2, hs3⟩ := hsrc s e rfl
              rw [show sourceSpans (.ok (.Source s e) :: items2) =
                (s, e) :: sourceSpans items2 from by simp [sourceSpans]]
              dsimp only [chainFrom]
              refine ⟨hs1, ?_, ?_⟩
              · omega
              · rw [hs2]
                exact h3
            · push_neg at hS
              have hbo := hnsrc hS
              have hsp : sourceSpans (it :: items2) = sourceSpans items2 := by
                cases it with
                | error er => simp [sourceSpans]
                | ok ev =>
                  cases ev with
                  | Source s e => exact absurd rfl (hS s e)
                  | HighlightStart hh => simp [sourceSpans]
                  | HighlightEnd => simp [sourceSpans]
              rw [hsp, ← hbo]
              exact h3

/-- C1: for every source, configuration and capture data, and every complete
drain of the iterator, the emitted events form a balanced bracket language:
at every prefix the number of `HighlightStart` items is at least the number
of `HighlightEnd` items, and when the iterator is exhausted after an
error-free drain the two counts are equal. -/
theorem bracket_balance (p : IterParams) (descs : List LayerDesc) (fuel : Nat)
    (items : List (Except Error HighlightEvent))
    (horacle : OracleInBounds p.source.length p)
    (hdescs : ∀ d ∈ descs, ∀ c ∈ d.captures,
      c.node.start_byte ≤ p.source.length ∧ c.node.end_byte ≤ p.source.length)
    (hdrain : drainN p fuel (initState descs) = some items) :
    (∀ n, endsCount (items.take n) ≤ startsCount (items.take n)) ∧
    (errorFree items → startsCount items = endsCount items) := by
  have hphi0 : phi (initState descs) = 0 := by
    unfold phi initState
    dsimp only
    rw [stackSum_sort_layers_list, stackSum_map_mkLayer]
    simp [bufferedDelta]
  have hfo : frontOk (initState descs).layers := frontOk_sort_layers_list _
  have hB : BufferOk (initState descs) := by
    intro h hc
    cases hc
  have hNB : NoBufferedSource (initState descs) := by
    intro s e hc
    cases hc
  have hSB : StateInBounds p.source.length (initState descs) := by
    constructor
    · intro l hl
      have hmem := mem_sort_layers_list l _ hl
      rcases List.mem_map.mp hmem with ⟨d, hd, hdl⟩
      subst hdl
      refine ⟨fun c hc => hdescs d hd c hc, ?_⟩
      intro e he
      simp [mkLayer] at he
    · exact Nat.zero_le _
  obtain ⟨h1, h2, _⟩ :=
    drainN_accounting p horacle fuel (initState descs) items hdrain hB hNB hSB
  constructor
  · intro n
    have h3 := h1 n
    rw [hphi0, itemsBalance_eq] at h3
    omega
  · intro hef
    have h3 := h2 hfo hef
    rw [hphi0, itemsBalance_eq] at h3
    omega

/-- Witness for the C1 theorem on the simple one-highlight scenario. -/
theorem bracket_balance_witness :
    startsCount
        [Except.ok (HighlightEvent.Source 0 1),
         Except.ok (HighlightEvent.HighlightStart ⟨7⟩),
         Except.ok (HighlightEvent.Source 1 2),
         Except.ok HighlightEvent.HighlightEnd,
         Except.ok (HighlightEvent.Source 2 3)] =
      endsCount
        [Except.ok (HighlightEvent.Source 0 1),
         Except.ok (HighlightEvent.HighlightStart ⟨7⟩),
         Except.ok (HighlightEvent.Source 1 2),
         Except.ok HighlightEvent.HighlightEnd,
         Except.ok (HighlightEvent.Source 2 3)] :=
  (bracket_balance params_simple [desc_simple] 20
      [Except.ok (HighlightEvent.Source 0 1),
       Except.ok (HighlightEvent.HighlightStart ⟨7⟩),
       Except.ok (HighlightEvent.Source 1 2),
       Except.ok HighlightEvent.HighlightEnd,
       Except.ok (HighlightEvent.Source 2 3)]
      (by intro args ds h; simp [params_simple] at h)
      (by decide) rfl).2
    (by intro e; cases e <;> decide)

/-- C2: for every source, configuration and capture data, when the iterator
is drained to exhaustion without error, the `Source{start,end}` spans are
emitted in order, each starting where the previous one ended, non-empty,
starting at byte 0 and ending at the source length: every byte is reported
exactly once, with no gaps and no overlaps. -/
theorem source_coverage (p : IterParams) (descs : List LayerDesc) (fuel : Nat)
    (items : List (Except Error HighlightEvent))
    (horacle : OracleInBounds p.source.length p)
    (hdescs : ∀ d ∈ descs, ∀ c ∈ d.captures,
      c.node.start_byte ≤ p.source.length ∧ c.node.end_byte ≤ p.source.length)
    (hdrain : drainN p fuel (initState descs) = some items)
    (hnoerr : errorFree items) :
    chainFrom 0 (sourceSpans items) p.source.length := by
  have hB : BufferOk (initState descs) := by
    intro h hc
    cases hc
  have hNB : NoBufferedSource (initState descs) := by
    intro s e hc
    cases hc
  have hSB : StateInBounds p.source.length (initState descs) := by
    constructor
    · intro l hl
      have hmem := mem_sort_layers_list l _ hl
      rcases List.mem_map.mp hmem with ⟨d, hd, hdl⟩
      subst hdl
      refine ⟨fun c hc => hdescs d hd c hc, ?_⟩
      intro e he
      simp [mkLayer] at he
    · exact Nat.zero_le _
  obtain ⟨_, _, h3⟩ :=
    drainN_accounting p horacle fuel (initState descs) items hdrain hB hNB hSB
  exact h3

/-- Witness for the C2 theorem on the simple one-highlight scenario. -/
theorem source_coverage_witness :
    chainFrom 0
      (sourceSpans
        [Except.ok (HighlightEvent.Source 0 1),
         Except.ok (HighlightEvent.HighlightStart ⟨7⟩),
         Except.ok (HighlightEvent.Source 1 2),
         Except.ok HighlightEvent.HighlightEnd,
         Except.ok (HighlightEvent.Source 2 3)])
      params_simple.source.length :=
  source_coverage params_simple [desc_simple] 20
    [Except.ok (HighlightEvent.Source 0 1),
     Except.ok (HighlightEvent.HighlightStart ⟨7⟩),
     Except.ok (HighlightEvent.Source 1 2),
     Except.ok HighlightEvent.HighlightEnd,
     Except.ok (HighlightEvent.Source 2 3)]
    (by intro args ds h; simp [params_simple] at h)
    (by decide) rfl
    (by intro e; cases e <;> decide)

end TSHighlight
